import Mathlib

/-!
Verification of the Circuit Studio circuit-evaluation engine.

The definitions below are shallow embeddings of the JavaScript source:

* the union-find net builder of `evaluateCircuit` / `buildCircuitModel`
  (src/script.js, lines 937-946 and 1145-1155),
* the Gaussian-elimination linear solver and the Newton-Raphson MNA loop
  of `CircuitSolver.solveMNA` (src/circuit-solver.js),
* the model translation, failure handling and result annotation of
  `evaluateCircuit`, `buildCircuitModel`, `applyBasicResults` and
  `fallbackSimplePowering` (src/script.js),
* the fallback path solver `SimpleSolver.simulate` (src/simple-solver.js).

JavaScript numbers are modelled by `ℚ` (exact arithmetic); unbounded JS
recursion is modelled with explicit fuel, chosen large enough and proved
sufficient where needed.
-/

/- Batteries marks the core `Rat` arithmetic `@[irreducible]`, which blocks
`decide`'s elaborator-side reduction on concrete rationals (the kernel itself
is unaffected); restore the default reducibility for this file's concrete
evaluations. -/
attribute [local semireducible] Rat.ofScientific Rat.mul Rat.inv Rat.add Rat.sub

/-! ## Net builder: union-find over connector indices

Source (src/script.js lines 940-944, identically at 1148-1152):

    const parent = connectorList.map((_,i) => i);
    function find(i){ return parent[i]===i?i:(parent[i]=find(parent[i])); }
    function union(i,j){ const ri=find(i), rj=find(j); if(ri!==rj) parent[rj]=ri; }
    connections.forEach(c => { ... union(i,j); });
    const netId = connectorList.map((_,i) => find(i));

The parent array is a `List Nat`; `parentAt p i` is `parent[i]` (out-of-range
reads, which never happen on the source's inputs, default to `i`). -/

def parentAt (p : List Nat) (i : Nat) : Nat := p.getD i i

/-- `parent[i] === i`: `i` is a union-find root. -/
def IsRoot (p : List Nat) (i : Nat) : Prop := parentAt p i = i

instance (p : List Nat) (i : Nat) : Decidable (IsRoot p i) := by
  unfold IsRoot; infer_instance

/-- The source's `find` with path compression
(`return parent[i]===i?i:(parent[i]=find(parent[i]))`), with explicit fuel
standing for the unbounded JS recursion.  Returns the updated parent array and
the root. -/
def ufFind : Nat → List Nat → Nat → List Nat × Nat
  | 0, p, i => (p, i)
  | fuel+1, p, i =>
    if parentAt p i = i then (p, i)
    else
      let r := ufFind fuel p (parentAt p i)
      (r.1.set i r.2, r.2)

/-- The source's `union`: find both roots, then `parent[rj] = ri` when they
differ.  Fuel for `find` is the array length, which `ufFind` never changes
(proved sufficient below). -/
def ufUnion (p : List Nat) (i j : Nat) : List Nat :=
  let fi := ufFind p.length p i
  let fj := ufFind p.length fi.1 j
  if fi.2 ≠ fj.2 then fj.1.set fj.2 fi.2 else fj.1

/-- Mathematical root of `i`: iterate the parent map `p.length` times.  Under
the forest invariant this reaches the unique root of `i`'s tree. -/
def ufRoot (p : List Nat) (i : Nat) : Nat := (parentAt p)^[p.length] i

/-- Forest invariant for a parent array of size `n`: correct length, parents
in range, and no cycles other than self-loops (witnessed by a measure that
strictly drops along parent edges). -/
structure UFInv (n : Nat) (p : List Nat) : Prop where
  len : p.length = n
  bounded : ∀ i, i < n → parentAt p i < n
  acyc : ∃ m : Nat → Nat, ∀ i, i < n → parentAt p i ≠ i → m (parentAt p i) < m i

theorem parentAt_lt_length {p : List Nat} {i : Nat} (h : i < p.length) :
    parentAt p i = p[i] := by
  simp [parentAt, List.getD_eq_getElem?_getD, List.getElem?_eq_getElem h]

theorem parentAt_set_self {p : List Nat} {i v : Nat} (h : i < p.length) :
    parentAt (p.set i v) i = v := by
  rw [parentAt_lt_length (by simpa using h)]
  simp [List.getElem_set_self]

theorem parentAt_set_ne {p : List Nat} {i j v : Nat} (h : j ≠ i) :
    parentAt (p.set i v) j = parentAt p j := by
  unfold parentAt
  rw [List.getD_eq_getElem?_getD, List.getD_eq_getElem?_getD,
    List.getElem?_set_ne (by omega)]

theorem parentAt_iterate_lt {n : Nat} {p : List Nat} (inv : UFInv n p) {i : Nat}
    (hi : i < n) : ∀ k, (parentAt p)^[k] i < n := by
  intro k
  induction k with
  | zero => simpa using hi
  | succ k ih => rw [Function.iterate_succ_apply']; exact inv.bounded _ ih

theorem iterate_stab {p : List Nat} {k i : Nat}
    (h : IsRoot p ((parentAt p)^[k] i)) :
    ∀ j, k ≤ j → (parentAt p)^[j] i = (parentAt p)^[k] i := by
  intro j hj
  induction j with
  | zero =>
    have hk0 : k = 0 := by omega
    rw [hk0]
  | succ j ih =>
    rcases Nat.lt_or_ge k (j+1) with hlt | hge
    · have hkj : k ≤ j := by omega
      rw [Function.iterate_succ_apply', ih hkj]
      exact h
    · have : k = j + 1 := by omega
      rw [this]

/-- Under the forest invariant, iterating the parent map from any in-range
index reaches a root in fewer than `n` steps. -/
theorem exists_root_iterate {n : Nat} {p : List Nat} (inv : UFInv n p) {i : Nat}
    (hi : i < n) : ∃ k, k < n ∧ IsRoot p ((parentAt p)^[k] i) := by
  by_contra hcon
  push_neg at hcon
  obtain ⟨m, hm⟩ := inv.acyc
  have step : ∀ k, k < n → m ((parentAt p)^[k+1] i) < m ((parentAt p)^[k] i) := by
    intro k hk
    rw [Function.iterate_succ_apply']
    exact hm _ (parentAt_iterate_lt inv hi k) (hcon k hk)
  have anti : ∀ a b, a < b → b ≤ n → m ((parentAt p)^[b] i) < m ((parentAt p)^[a] i) := by
    intro a b hab hbn
    induction b with
    | zero => omega
    | succ b ih =>
      have hb : b < n := by omega
      rcases Nat.lt_or_ge a b with h1 | h2
      · exact lt_trans (step b hb) (ih h1 (by omega))
      · have : a = b := by omega
        subst this
        exact step a hb
  have maps : ∀ k ∈ Finset.range (n+1), (parentAt p)^[k] i ∈ Finset.range n := by
    intro k _
    simpa using parentAt_iterate_lt inv hi k
  obtain ⟨a, ha, b, hb, hne, heq⟩ :=
    Finset.exists_ne_map_eq_of_card_lt_of_maps_to (by simp) maps
  simp only [Finset.mem_range] at ha hb
  rcases Nat.lt_or_ge a b with h1 | h2
  · have h4 := anti a b h1 (by omega)
    rw [heq] at h4
    exact lt_irrefl _ h4
  · have h3 : b < a := by omega
    have h4 := anti b a h3 (by omega)
    rw [heq] at h4
    exact lt_irrefl _ h4

theorem ufRoot_isRoot {n : Nat} {p : List Nat} (inv : UFInv n p) {i : Nat}
    (hi : i < n) : IsRoot p (ufRoot p i) := by
  obtain ⟨k, hk, hr⟩ := exists_root_iterate inv hi
  unfold ufRoot
  rw [inv.len, iterate_stab hr n (by omega)]
  exact hr

theorem ufRoot_of_isRoot {p : List Nat} {i : Nat} (h : IsRoot p i) :
    ufRoot p i = i := Function.iterate_fixed h _

theorem ufRoot_lt {n : Nat} {p : List Nat} (inv : UFInv n p) {i : Nat}
    (hi : i < n) : ufRoot p i < n := by
  unfold ufRoot
  exact parentAt_iterate_lt inv hi _

theorem ufRoot_parent {n : Nat} {p : List Nat} (inv : UFInv n p) {i : Nat}
    (hi : i < n) :
    ufRoot p i = ufRoot p (parentAt p i) := by
  have hn : 1 ≤ n := by omega
  have hp : parentAt p i < n := inv.bounded _ hi
  obtain ⟨k, hk, hr⟩ := exists_root_iterate inv hp
  unfold ufRoot
  rw [inv.len]
  have h1 : n = (n - 1) + 1 := by omega
  calc (parentAt p)^[n] i = (parentAt p)^[(n-1)+1] i := by rw [← h1]
    _ = (parentAt p)^[n-1] (parentAt p i) := by rw [Function.iterate_succ_apply]
    _ = (parentAt p)^[k] (parentAt p i) := iterate_stab hr _ (by omega)
    _ = (parentAt p)^[n] (parentAt p i) := (iterate_stab hr _ (by omega)).symm

theorem measure_ufRoot_lt {n : Nat} {p : List Nat} (inv : UFInv n p)
    {m : Nat → Nat} (hm : ∀ i, i < n → parentAt p i ≠ i → m (parentAt p i) < m i)
    {i : Nat} (hi : i < n) (hne : parentAt p i ≠ i) : m (ufRoot p i) < m i := by
  have hp : parentAt p i < n := inv.bounded _ hi
  have aux : ∀ k, m ((parentAt p)^[k] (parentAt p i)) ≤ m (parentAt p i) := by
    intro k
    induction k with
    | zero => simp
    | succ k ih =>
      rw [Function.iterate_succ_apply']
      set x := (parentAt p)^[k] (parentAt p i) with hx
      by_cases hroot : parentAt p x = x
      · rw [hroot]; exact ih
      · have hxlt : x < n := parentAt_iterate_lt inv hp k
        exact le_of_lt (lt_of_lt_of_le (hm x hxlt hroot) ih)
  have h1 : n = (n - 1) + 1 := by omega
  have : ufRoot p i = (parentAt p)^[n-1] (parentAt p i) := by
    unfold ufRoot
    rw [inv.len]
    conv_lhs => rw [h1]
    rw [Function.iterate_succ_apply]
  rw [this]
  exact lt_of_le_of_lt (aux _) (hm i hi hne)

/-- `p'` relates to `p` by path compression: every in-range entry is either
unchanged or has been rewritten to point at its own root. -/
def PfOrRoot (p p' : List Nat) (n : Nat) : Prop :=
  ∀ j, j < n → parentAt p' j = parentAt p j ∨ parentAt p' j = ufRoot p j

theorem ufRoot_ne_of_parent_ne {n : Nat} {p : List Nat} (inv : UFInv n p)
    {i : Nat} (hi : i < n) (hne : parentAt p i ≠ i) : ufRoot p i ≠ i := by
  intro h
  have := ufRoot_isRoot inv hi
  rw [h] at this
  exact hne this

theorem preserve_inv {n : Nat} {p p' : List Nat} (inv : UFInv n p)
    (hl : p'.length = n) (h : PfOrRoot p p' n) : UFInv n p' := by
  obtain ⟨m, hm⟩ := inv.acyc
  refine ⟨hl, ?_, ⟨m, ?_⟩⟩
  · intro i hi
    rcases h i hi with h1 | h1
    · rw [h1]; exact inv.bounded _ hi
    · rw [h1]; exact ufRoot_lt inv hi
  · intro i hi hne
    rcases h i hi with h1 | h1
    · rw [h1] at hne ⊢
      exact hm i hi hne
    · rw [h1] at hne ⊢
      by_cases hpi : parentAt p i = i
      · exact absurd (ufRoot_of_isRoot hpi) hne
      · exact measure_ufRoot_lt inv hm hi hpi

theorem preserve_root {n : Nat} {p p' : List Nat} (inv : UFInv n p)
    (hl : p'.length = n) (h : PfOrRoot p p' n) :
    ∀ x, x < n → ufRoot p' x = ufRoot p x := by
  obtain ⟨m, hm⟩ := inv.acyc
  have inv' : UFInv n p' := preserve_inv inv hl h
  have key : ∀ N x, x < n → m x < N → ufRoot p' x = ufRoot p x := by
    intro N
    induction N with
    | zero => intro x _ hx; omega
    | succ N ih =>
      intro x hx hmx
      by_cases hroot : parentAt p x = x
      · have hr : ufRoot p x = x := ufRoot_of_isRoot hroot
        rcases h x hx with h1 | h1
        · rw [hroot] at h1
          rw [ufRoot_of_isRoot h1, hr]
        · rw [hr] at h1
          rw [ufRoot_of_isRoot h1, hr]
      · rcases h x hx with h1 | h1
        · have hne' : parentAt p' x ≠ x := by rw [h1]; exact hroot
          rw [ufRoot_parent inv' hx, h1,
            ih _ (inv.bounded _ hx) (by have := hm x hx hroot; omega),
            ← ufRoot_parent inv hx]
        · have hrne : ufRoot p x ≠ x := ufRoot_ne_of_parent_ne inv hx hroot
          have hne' : parentAt p' x ≠ x := by rw [h1]; exact hrne
          have hrlt : ufRoot p x < n := ufRoot_lt inv hx
          have hr_isroot_p : IsRoot p (ufRoot p x) := ufRoot_isRoot inv hx
          have hr_isroot : IsRoot p' (ufRoot p x) := by
            rcases h _ hrlt with h2 | h2
            · unfold IsRoot
              rw [h2]
              exact hr_isroot_p
            · unfold IsRoot
              rw [h2]
              exact ufRoot_of_isRoot hr_isroot_p
          rw [ufRoot_parent inv' hx, h1, ufRoot_of_isRoot hr_isroot]
  intro x hx
  exact key (m x + 1) x hx (by omega)

theorem ufFind_spec {n : Nat} {p : List Nat} (inv : UFInv n p) :
    ∀ fuel i, i < n → (∃ k, k ≤ fuel ∧ IsRoot p ((parentAt p)^[k] i)) →
      (ufFind fuel p i).2 = ufRoot p i ∧ (ufFind fuel p i).1.length = n ∧
        PfOrRoot p (ufFind fuel p i).1 n := by
  intro fuel
  induction fuel with
  | zero =>
    intro i hi ⟨k, hk, hr⟩
    have hk0 : k = 0 := by omega
    subst hk0
    simp only [Function.iterate_zero, id_eq] at hr
    refine ⟨?_, inv.len, ?_⟩
    · simp [ufFind, ufRoot_of_isRoot hr]
    · intro j _; left; rfl
  | succ fuel ih =>
    intro i hi ⟨k, hk, hr⟩
    by_cases hroot : parentAt p i = i
    · simp only [ufFind, if_pos hroot]
      exact ⟨(ufRoot_of_isRoot hroot).symm, inv.len, fun j _ => Or.inl rfl⟩
    · have hk0 : k ≠ 0 := by
        intro h; subst h
        simp only [Function.iterate_zero, id_eq] at hr
        exact hroot hr
      obtain ⟨k', rfl⟩ : ∃ k', k = k' + 1 := ⟨k - 1, by omega⟩
      rw [Function.iterate_succ_apply] at hr
      have hp : parentAt p i < n := inv.bounded _ hi
      obtain ⟨h2, hlen, hpor⟩ := ih (parentAt p i) hp ⟨k', by omega, hr⟩
      have hilen : i < (ufFind fuel p (parentAt p i)).1.length := by omega
      simp only [ufFind, if_neg hroot]
      refine ⟨?_, ?_, ?_⟩
      · simp only [h2]
        exact (ufRoot_parent inv hi).symm
      · simp [List.length_set, hlen]
      · intro j hj
        by_cases hji : j = i
        · subst hji
          right
          rw [parentAt_set_self hilen, h2]
          exact (ufRoot_parent inv hj).symm
        · rw [parentAt_set_ne hji]
          exact hpor j hj

theorem ufFind_full {n : Nat} {p : List Nat} (inv : UFInv n p) {i : Nat}
    (hi : i < n) :
    (ufFind p.length p i).2 = ufRoot p i ∧ (ufFind p.length p i).1.length = n ∧
      PfOrRoot p (ufFind p.length p i).1 n := by
  obtain ⟨k, hk, hr⟩ := exists_root_iterate inv hi
  exact ufFind_spec inv p.length i hi ⟨k, by rw [inv.len]; omega, hr⟩

/-- Effect of one `union(i,j)` on the root map: the two classes merge, the
class of `j` being re-rooted at `i`'s root. -/
theorem ufUnion_spec {n : Nat} {p : List Nat} (inv : UFInv n p) {i j : Nat}
    (hi : i < n) (hj : j < n) :
    UFInv n (ufUnion p i j) ∧ ∀ x, x < n →
      ufRoot (ufUnion p i j) x =
        (if ufRoot p x = ufRoot p j then ufRoot p i else ufRoot p x) := by
  obtain ⟨hri, hl1, hpor1⟩ := ufFind_full inv hi
  have inv1 : UFInv n (ufFind p.length p i).1 := preserve_inv inv hl1 hpor1
  have roots1 := preserve_root inv hl1 hpor1
  have hfind2 := ufFind_spec inv1 p.length j hj
    (by obtain ⟨k, hk, hr⟩ := exists_root_iterate inv1 hj
        exact ⟨k, by rw [inv.len]; omega, hr⟩)
  obtain ⟨hrj, hl2, hpor2⟩ := hfind2
  have inv2 : UFInv n (ufFind p.length (ufFind p.length p i).1 j).1 :=
    preserve_inv inv1 hl2 hpor2
  have roots2 : ∀ x, x < n →
      ufRoot (ufFind p.length (ufFind p.length p i).1 j).1 x = ufRoot p x := by
    intro x hx
    rw [preserve_root inv1 hl2 hpor2 x hx, roots1 x hx]
  have hriv : (ufFind p.length p i).2 = ufRoot p i := hri
  have hrjv : (ufFind p.length (ufFind p.length p i).1 j).2 = ufRoot p j := by
    rw [hrj, roots1 j hj]
  generalize hq1 : (ufFind p.length p i).2 = ri at *
  generalize hq2 : (ufFind p.length (ufFind p.length p i).1 j).2 = rj at *
  generalize hq3 : (ufFind p.length (ufFind p.length p i).1 j).1 = p2 at *
  have hunion : ufUnion p i j = if ri ≠ rj then p2.set rj ri else p2 := by
    simp only [ufUnion, hq1, hq2, hq3]
  by_cases hne : ri ≠ rj
  · rw [hunion, if_pos hne]
    have hrin : ri < n := by rw [hriv]; exact ufRoot_lt inv hi
    have hrjn : rj < n := by rw [hrjv]; exact ufRoot_lt inv hj
    have hlen : (p2.set rj ri).length = n := by simp [hl2]
    have hrootj : IsRoot p2 rj := by
      have h0 := ufRoot_isRoot inv2 hj
      rwa [roots2 j hj, ← hrjv] at h0
    have hrooti : IsRoot p2 ri := by
      have h0 := ufRoot_isRoot inv2 hi
      rwa [roots2 i hi, ← hriv] at h0
    have hq_rj : parentAt (p2.set rj ri) rj = ri := parentAt_set_self (by omega)
    have hq_ne : ∀ x, x ≠ rj → parentAt (p2.set rj ri) x = parentAt p2 x :=
      fun x hx => parentAt_set_ne hx
    obtain ⟨m2, hm2⟩ := inv2.acyc
    have invq : UFInv n (p2.set rj ri) := by
      refine ⟨hlen, ?_, ?_⟩
      · intro x hx
        by_cases hxr : x = rj
        · rw [hxr, hq_rj]; exact hrin
        · rw [hq_ne x hxr]; exact inv2.bounded _ hx
      · refine ⟨fun x => if ufRoot p2 x = rj then m2 x + (m2 ri + 1) else m2 x, ?_⟩
        intro x hx hnex
        dsimp only
        by_cases hxr : x = rj
        · rw [hxr, hq_rj]
          have h1 : ufRoot p2 rj = rj := ufRoot_of_isRoot hrootj
          have h2 : ufRoot p2 ri = ri := ufRoot_of_isRoot hrooti
          rw [h1, if_pos rfl, h2, if_neg hne]
          omega
        · rw [hq_ne x hxr] at hnex ⊢
          have hstep : ufRoot p2 (parentAt p2 x) = ufRoot p2 x :=
            (ufRoot_parent inv2 hx).symm
          have hdrop := hm2 x hx hnex
          rw [hstep]
          by_cases hcls : ufRoot p2 x = rj
          · rw [if_pos hcls, if_pos hcls]; omega
          · rw [if_neg hcls, if_neg hcls]; omega
    refine ⟨invq, ?_⟩
    have key : ∀ N x, x < n → m2 x < N →
        ufRoot (p2.set rj ri) x = (if ufRoot p2 x = rj then ri else ufRoot p2 x) := by
      intro N
      induction N with
      | zero => intro x _ h; omega
      | succ N ihN =>
        intro x hx hmx
        by_cases hroot : parentAt p2 x = x
        · have hr : ufRoot p2 x = x := ufRoot_of_isRoot hroot
          by_cases hxr : x = rj
          · rw [hxr] at hr ⊢
            have hq_ri : IsRoot (p2.set rj ri) ri := by
              unfold IsRoot
              rw [hq_ne ri hne]
              exact hrooti
            have hstep : ufRoot (p2.set rj ri) rj = ufRoot (p2.set rj ri) ri := by
              rw [ufRoot_parent invq hrjn, hq_rj]
            rw [hstep, ufRoot_of_isRoot hq_ri, hr, if_pos rfl]
          · have hq_root : IsRoot (p2.set rj ri) x := by
              unfold IsRoot
              rw [hq_ne x hxr]
              exact hroot
            rw [ufRoot_of_isRoot hq_root, hr, if_neg hxr]
        · have hxr : x ≠ rj := by
            intro h; subst h; exact hroot hrootj
          have hq_x : parentAt (p2.set rj ri) x = parentAt p2 x := hq_ne x hxr
          have hplt : parentAt p2 x < n := inv2.bounded _ hx
          have hmp : m2 (parentAt p2 x) < N := by
            have := hm2 x hx hroot; omega
          rw [ufRoot_parent invq hx, hq_x, ihN _ hplt hmp,
            ← ufRoot_parent inv2 hx]
    intro x hx
    rw [key (m2 x + 1) x hx (by omega), roots2 x hx, hriv, hrjv]
  · rw [hunion, if_neg hne]
    push_neg at hne
    refine ⟨inv2, ?_⟩
    intro x hx
    rw [roots2 x hx]
    by_cases hc : ufRoot p x = ufRoot p j
    · rw [if_pos hc, hc, ← hrjv, ← hne, hriv]
    · rw [if_neg hc]

theorem eqvGen_of_iff {r r' : Nat → Nat → Prop} (h : ∀ x y, r x y ↔ r' x y)
    {x y : Nat} : Relation.EqvGen r x y → Relation.EqvGen r' x y := by
  intro hxy
  induction hxy with
  | rel a b hab => exact Relation.EqvGen.rel _ _ ((h a b).mp hab)
  | refl a => exact Relation.EqvGen.refl a
  | symm a b _ ih => exact Relation.EqvGen.symm _ _ ih
  | trans a b c _ _ ih1 ih2 => exact Relation.EqvGen.trans _ _ _ ih1 ih2

theorem eqvGen_congr {r r' : Nat → Nat → Prop} (h : ∀ x y, r x y ↔ r' x y)
    {x y : Nat} : Relation.EqvGen r x y ↔ Relation.EqvGen r' x y :=
  ⟨eqvGen_of_iff h, eqvGen_of_iff (fun a b => (h a b).symm)⟩

theorem eqvGen_false_iff {x y : Nat} :
    Relation.EqvGen (fun _ _ : Nat => False) x y ↔ x = y := by
  constructor
  · intro h
    induction h with
    | rel a b hab => exact absurd hab (by simp)
    | refl a => rfl
    | symm a b _ ih => omega
    | trans a b c _ _ ih1 ih2 => omega
  · rintro rfl
    exact Relation.EqvGen.refl x

/-- Monotonicity of the equivalence closure. -/
theorem eqvGen_mono {r r' : Nat → Nat → Prop} (h : ∀ x y, r x y → r' x y)
    {x y : Nat} : Relation.EqvGen r x y → Relation.EqvGen r' x y := by
  intro hxy
  induction hxy with
  | rel a b hab => exact Relation.EqvGen.rel _ _ (h a b hab)
  | refl a => exact Relation.EqvGen.refl a
  | symm a b _ ih => exact Relation.EqvGen.symm _ _ ih
  | trans a b c _ _ ih1 ih2 => exact Relation.EqvGen.trans _ _ _ ih1 ih2

/-- Adding one pair `(a, b)` to a relation extends its equivalence closure in
exactly the expected way. -/
theorem eqvGen_insert_iff {r : Nat → Nat → Prop} {a b x y : Nat} :
    Relation.EqvGen (fun u v => r u v ∨ (u = a ∧ v = b)) x y ↔
      Relation.EqvGen r x y ∨ (Relation.EqvGen r x a ∧ Relation.EqvGen r b y) ∨
        (Relation.EqvGen r x b ∧ Relation.EqvGen r a y) := by
  constructor
  · intro h
    induction h with
    | rel u v huv =>
      rcases huv with h1 | ⟨rfl, rfl⟩
      · exact Or.inl (Relation.EqvGen.rel _ _ h1)
      · exact Or.inr (Or.inl ⟨Relation.EqvGen.refl u, Relation.EqvGen.refl v⟩)
    | refl u => exact Or.inl (Relation.EqvGen.refl u)
    | symm u v _ ih =>
      rcases ih with h1 | ⟨h1, h2⟩ | ⟨h1, h2⟩
      · exact Or.inl (Relation.EqvGen.symm _ _ h1)
      · exact Or.inr (Or.inr ⟨Relation.EqvGen.symm _ _ h2, Relation.EqvGen.symm _ _ h1⟩)
      · exact Or.inr (Or.inl ⟨Relation.EqvGen.symm _ _ h2, Relation.EqvGen.symm _ _ h1⟩)
    | trans u v w _ _ ih1 ih2 =>
      rcases ih1 with h1 | ⟨h1, h2⟩ | ⟨h1, h2⟩ <;>
        rcases ih2 with h3 | ⟨h3, h4⟩ | ⟨h3, h4⟩
      · exact Or.inl (Relation.EqvGen.trans _ _ _ h1 h3)
      · exact Or.inr (Or.inl ⟨Relation.EqvGen.trans _ _ _ h1 h3, h4⟩)
      · exact Or.inr (Or.inr ⟨Relation.EqvGen.trans _ _ _ h1 h3, h4⟩)
      · exact Or.inr (Or.inl ⟨h1, Relation.EqvGen.trans _ _ _ h2 h3⟩)
      · exact Or.inr (Or.inl ⟨h1, h4⟩)
      · exact Or.inl (Relation.EqvGen.trans _ _ _ h1 h4)
      · exact Or.inr (Or.inr ⟨h1, Relation.EqvGen.trans _ _ _ h2 h3⟩)
      · exact Or.inl (Relation.EqvGen.trans _ _ _ h1 h4)
      · exact Or.inr (Or.inr ⟨h1, h4⟩)
  · intro h
    have hmono : ∀ u v, Relation.EqvGen r u v →
        Relation.EqvGen (fun u v => r u v ∨ (u = a ∧ v = b)) u v :=
      fun u v huv => eqvGen_mono (fun _ _ h0 => Or.inl h0) huv
    have hab : Relation.EqvGen (fun u v => r u v ∨ (u = a ∧ v = b)) a b :=
      Relation.EqvGen.rel _ _ (Or.inr ⟨rfl, rfl⟩)
    rcases h with h1 | ⟨h1, h2⟩ | ⟨h1, h2⟩
    · exact hmono _ _ h1
    · exact Relation.EqvGen.trans _ _ _ (Relation.EqvGen.trans _ _ _ (hmono _ _ h1) hab) (hmono _ _ h2)
    · exact Relation.EqvGen.trans _ _ _ (Relation.EqvGen.trans _ _ _ (hmono _ _ h1)
        (Relation.EqvGen.symm _ _ hab)) (hmono _ _ h2)

/-- One step of `connections.forEach(c => { ... if (i!=null && j!=null) union(i,j); })`
(src/script.js line 943): `cIndex.get` yields an index exactly for connectors
present in the connector list, modelled as the bounds check. -/
def wireStep (n : Nat) (p : List Nat) (w : Nat × Nat) : List Nat :=
  if w.1 < n ∧ w.2 < n then ufUnion p w.1 w.2 else p

/-- The parent array after processing all wires, starting from
`connectorList.map((_,i) => i)`. -/
def netParent (n : Nat) (wires : List (Nat × Nat)) : List Nat :=
  wires.foldl (wireStep n) (List.range n)

/-- `const netId = connectorList.map((_,i) => find(i));` — the final `find`
pass, threading the compressed parent array left to right. -/
def netIdsGo (p : List Nat) : List Nat → List Nat × List Nat
  | [] => (p, [])
  | i :: rest =>
    let f := ufFind p.length p i
    let r := netIdsGo f.1 rest
    (r.1, f.2 :: r.2)

/-- The net id assigned to each connector index by the net builder. -/
def netIds (n : Nat) (wires : List (Nat × Nat)) : List Nat :=
  (netIdsGo (netParent n wires) (List.range n)).2

/-- Wire connectivity relation: an (in-range) wire directly joins `x` to `y`. -/
def WRel (n : Nat) (wires : List (Nat × Nat)) (x y : Nat) : Prop :=
  (x, y) ∈ wires ∧ x < n ∧ y < n

theorem parentAt_range {n i : Nat} : parentAt (List.range n) i = i := by
  unfold parentAt
  rcases Nat.lt_or_ge i n with h | h
  · rw [List.getD_eq_getElem?_getD, List.getElem?_range h]
    rfl
  · rw [List.getD_eq_getElem?_getD, List.getElem?_eq_none (by simpa using h)]
    rfl

theorem range_inv (n : Nat) : UFInv n (List.range n) := by
  refine ⟨List.length_range n, ?_, ⟨fun _ => 0, ?_⟩⟩
  · intro i hi; rw [parentAt_range]; exact hi
  · intro i _ hne; exact absurd parentAt_range hne

theorem ufRoot_range {n x : Nat} : ufRoot (List.range n) x = x := by
  unfold ufRoot
  exact Function.iterate_fixed parentAt_range _

theorem foldl_wires_spec (n : Nat) :
    ∀ (ws : List (Nat × Nat)) (p : List Nat) (r : Nat → Nat → Prop),
      UFInv n p →
      (∀ x y, x < n → y < n → (ufRoot p x = ufRoot p y ↔ Relation.EqvGen r x y)) →
      UFInv n (ws.foldl (wireStep n) p) ∧
      ∀ x y, x < n → y < n →
        (ufRoot (ws.foldl (wireStep n) p) x = ufRoot (ws.foldl (wireStep n) p) y ↔
          Relation.EqvGen (fun u v => r u v ∨ ((u, v) ∈ ws ∧ u < n ∧ v < n)) x y) := by
  intro ws
  induction ws with
  | nil =>
    intro p r inv hbase
    refine ⟨inv, ?_⟩
    intro x y hx hy
    rw [List.foldl_nil, hbase x y hx hy]
    exact eqvGen_congr (by simp)
  | cons w ws ih =>
    intro p r inv hbase
    rw [List.foldl_cons]
    by_cases hw : w.1 < n ∧ w.2 < n
    · have hstep : wireStep n p w = ufUnion p w.1 w.2 := if_pos hw
      obtain ⟨inv', hroot'⟩ := ufUnion_spec inv hw.1 hw.2
      rw [hstep]
      have hbase' : ∀ x y, x < n → y < n →
          (ufRoot (ufUnion p w.1 w.2) x = ufRoot (ufUnion p w.1 w.2) y ↔
            Relation.EqvGen (fun u v => r u v ∨ (u = w.1 ∧ v = w.2)) x y) := by
        intro x y hx hy
        rw [hroot' x hx, hroot' y hy, eqvGen_insert_iff]
        have e1 := hbase x y hx hy
        have e2 := hbase x w.1 hx hw.1
        have e3 := hbase y w.2 hy hw.2
        have e4 := hbase x w.2 hx hw.2
        have e5 := hbase y w.1 hy hw.1
        constructor
        · intro h
          by_cases c1 : ufRoot p x = ufRoot p w.2 <;>
            by_cases c2 : ufRoot p y = ufRoot p w.2
          · exact Or.inl (e1.mp (by rw [c1, c2]))
          · rw [if_pos c1, if_neg c2] at h
            exact Or.inr (Or.inr ⟨e4.mp c1, Relation.EqvGen.symm _ _ (e5.mp h.symm)⟩)
          · rw [if_neg c1, if_pos c2] at h
            exact Or.inr (Or.inl ⟨e2.mp h, Relation.EqvGen.symm _ _ (e3.mp c2)⟩)
          · rw [if_neg c1, if_neg c2] at h
            exact Or.inl (e1.mp h)
        · intro h
          rcases h with h1 | ⟨h1, h2⟩ | ⟨h1, h2⟩
          · have hxy := e1.mpr h1
            rw [hxy]
          · have hx1 := e2.mpr h1
            have hy2 := e3.mpr (Relation.EqvGen.symm _ _ h2)
            rw [hy2, hx1]
            by_cases c1 : ufRoot p w.1 = ufRoot p w.2
            · rw [if_pos c1, if_pos rfl]
            · rw [if_neg c1, if_pos rfl]
          · have hx2 := e4.mpr h1
            have hy1 := e5.mpr (Relation.EqvGen.symm _ _ h2)
            rw [hx2, hy1, if_pos rfl]
            by_cases c1 : ufRoot p w.1 = ufRoot p w.2
            · rw [if_pos c1]
            · rw [if_neg c1]
      obtain ⟨invf, hrootf⟩ :=
        ih (ufUnion p w.1 w.2) (fun u v => r u v ∨ (u = w.1 ∧ v = w.2)) inv' hbase'
      refine ⟨invf, ?_⟩
      intro x y hx hy
      rw [hrootf x y hx hy]
      refine eqvGen_congr ?_
      intro u v
      constructor
      · rintro ((h1 | ⟨rfl, rfl⟩) | ⟨h1, h2, h3⟩)
        · exact Or.inl h1
        · exact Or.inr ⟨by simp, hw.1, hw.2⟩
        · exact Or.inr ⟨List.mem_cons_of_mem _ h1, h2, h3⟩
      · rintro (h1 | ⟨h1, h2, h3⟩)
        · exact Or.inl (Or.inl h1)
        · rcases List.mem_cons.mp h1 with h4 | h4
          · exact Or.inl (Or.inr (by rw [Prod.ext_iff] at h4; exact ⟨h4.1, h4.2⟩))
          · exact Or.inr ⟨h4, h2, h3⟩
    · have hstep : wireStep n p w = p := if_neg hw
      rw [hstep]
      obtain ⟨invf, hrootf⟩ := ih p r inv hbase
      refine ⟨invf, ?_⟩
      intro x y hx hy
      rw [hrootf x y hx hy]
      refine eqvGen_congr ?_
      intro u v
      constructor
      · rintro (h1 | ⟨h1, h2, h3⟩)
        · exact Or.inl h1
        · exact Or.inr ⟨List.mem_cons_of_mem _ h1, h2, h3⟩
      · rintro (h1 | ⟨h1, h2, h3⟩)
        · exact Or.inl h1
        · rcases List.mem_cons.mp h1 with h4 | h4
          · exact absurd (by rw [Prod.ext_iff] at h4; exact ⟨h4.1 ▸ h2, h4.2 ▸ h3⟩) hw
          · exact Or.inr ⟨h4, h2, h3⟩

theorem netParent_spec (n : Nat) (wires : List (Nat × Nat)) :
    UFInv n (netParent n wires) ∧
    ∀ x y, x < n → y < n →
      (ufRoot (netParent n wires) x = ufRoot (netParent n wires) y ↔
        Relation.EqvGen (WRel n wires) x y) := by
  have hbase : ∀ x y, x < n → y < n →
      (ufRoot (List.range n) x = ufRoot (List.range n) y ↔
        Relation.EqvGen (fun _ _ : Nat => False) x y) := by
    intro x y _ _
    rw [ufRoot_range, ufRoot_range, eqvGen_false_iff]
  obtain ⟨inv, hroot⟩ := foldl_wires_spec n wires (List.range n) _ (range_inv n) hbase
  refine ⟨inv, ?_⟩
  intro x y hx hy
  rw [netParent, hroot x y hx hy]
  exact eqvGen_congr (by intro u v; unfold WRel; tauto)

theorem netIdsGo_spec {n : Nat} :
    ∀ (l : List Nat) (p : List Nat), UFInv n p → (∀ i ∈ l, i < n) →
      (netIdsGo p l).2 = l.map (ufRoot p) := by
  intro l
  induction l with
  | nil => intro p _ _; rfl
  | cons i rest ih =>
    intro p inv hmem
    have hi : i < n := hmem i (by simp)
    obtain ⟨hfst, hlen, hpor⟩ := ufFind_full inv hi
    have inv' : UFInv n (ufFind p.length p i).1 := preserve_inv inv hlen hpor
    have hroots := preserve_root inv hlen hpor
    have hrec := ih (ufFind p.length p i).1 inv' (fun j hj => hmem j (by simp [hj]))
    simp only [netIdsGo, hrec, hfst, List.map_cons]
    congr 1
    exact List.map_congr_left (fun j hj => hroots j (hmem j (by simp [hj])))

/-- The net-id list is the root map of the final union-find state. -/
theorem netIds_eq_map (n : Nat) (wires : List (Nat × Nat)) :
    netIds n wires = (List.range n).map (ufRoot (netParent n wires)) := by
  unfold netIds
  exact netIdsGo_spec (List.range n) (netParent n wires) (netParent_spec n wires).1
    (fun i hi => List.mem_range.mp hi)

/-- C2: for every connector count and every wire list (cyclic or disconnected
graphs included), the net builder assigns each of the `n` connectors exactly
one net id (the list has length `n`), two connectors receive the same net id
iff they are joined by a path of wires (the equivalence closure of the wire
relation), and an empty wire set yields one singleton net per connector. -/
theorem netBuilder_partitions (n : Nat) (wires : List (Nat × Nat)) (i j : Nat)
    (hi : i < n) (hj : j < n) :
    (netIds n wires).length = n ∧
    ((netIds n wires).getD i 0 = (netIds n wires).getD j 0 ↔
      Relation.EqvGen (WRel n wires) i j) ∧
    (wires = [] → netIds n wires = List.range n) := by
  have hlen : (netIds n wires).length = n := by
    rw [netIds_eq_map]; simp
  have hget : ∀ k, k < n →
      (netIds n wires).getD k 0 = ufRoot (netParent n wires) k := by
    intro k hk
    rw [netIds_eq_map, List.getD_eq_getElem?_getD,
      List.getElem?_eq_getElem (by simpa using hk)]
    simp
  refine ⟨hlen, ?_, ?_⟩
  · rw [hget i hi, hget j hj]
    exact (netParent_spec n wires).2 i j hi hj
  · rintro rfl
    have hparent : netParent n ([] : List (Nat × Nat)) = List.range n := rfl
    rw [netIds_eq_map, hparent]
    have : ∀ x ∈ List.range n, ufRoot (List.range n) x = x :=
      fun x _ => ufRoot_range
    rw [List.map_congr_left this, List.map_id']

/-- Witness for C2 at a concrete input: three connectors, one wire joining
connectors 0 and 2. -/
theorem netBuilder_partitions_witness :
    (netIds 3 [(0, 2)]).getD 0 0 = (netIds 3 [(0, 2)]).getD 2 0 ∧
      Relation.EqvGen (WRel 3 [(0, 2)]) 0 2 := by
  have h := netBuilder_partitions 3 [(0, 2)] 0 2 (by decide) (by decide)
  have heq : (netIds 3 [(0, 2)]).getD 0 0 = (netIds 3 [(0, 2)]).getD 2 0 := by decide
  exact ⟨heq, h.2.1.mp heq⟩

/-! ## CircuitSolver.solveMNA (src/circuit-solver.js, lines 100-201)

Matrices are `List (List ℚ)` row-major, vectors `List ℚ`; out-of-range reads
default to `0` and out-of-range writes are dropped (they never occur on the
in-range indices the source uses).  `Math.exp` is passed in as a function
parameter `expQ`; every evaluation in this file runs with an empty diode list,
so its value is never consulted there. -/

abbrev Mat := List (List ℚ)
abbrev Vec := List ℚ

def entry (A : Mat) (i j : Nat) : ℚ := (A.getD i []).getD j 0

def vecAt (z : Vec) (i : Nat) : ℚ := z.getD i 0

/-- JS `v || d` on numbers: `0` is falsy. -/
def jsOr (v d : ℚ) : ℚ := if v = 0 then d else v

/-- The singularity threshold `1e-18` of `solveLinear`. -/
def pivotEps : ℚ := 1 / 10 ^ 18

/-- Partial-pivot scan: `maxRow=i; maxVal=Math.abs(mat[i][i]);` then take any
strictly larger `|mat[r][i]|` for `r` in `i+1..dim-1`. -/
def pivotScan (A : Mat) (i dim : Nat) : Nat × ℚ :=
  (List.range' (i+1) (dim - (i+1))).foldl
    (fun acc r => let v := |entry A r i|; if v > acc.2 then (r, v) else acc)
    (i, |entry A i i|)

def swapRows (A : Mat) (i r : Nat) : Mat :=
  let ri := A.getD i []
  let rr := A.getD r []
  (A.set i rr).set r ri

def swapVec (z : Vec) (i r : Nat) : Vec :=
  let zi := z.getD i 0
  let zr := z.getD r 0
  (z.set i zr).set r zi

/-- `for (let c=i;c<dim;c++) mat[r][c] -= factor * mat[i][c];` -/
def elimRow (dim i : Nat) (pivotRow : Vec) (factor : ℚ) (row : Vec) : Vec :=
  (List.range' i (dim - i)).foldl
    (fun row c => row.set c (row.getD c 0 - factor * pivotRow.getD c 0)) row

/-- Eliminate the rows below `i`.  The `if (!isFinite(factor)) continue;`
guard never fires over ℚ. -/
def elimBelow (dim i : Nat) (A : Mat) (z : Vec) : Mat × Vec :=
  let pivot := entry A i i
  let pivotRow := A.getD i []
  (List.range' (i+1) (dim - (i+1))).foldl
    (fun (s : Mat × Vec) r =>
      let factor := entry s.1 r i / pivot
      (s.1.set r (elimRow dim i pivotRow factor (s.1.getD r [])),
       s.2.set r (vecAt s.2 r - factor * vecAt s.2 i)))
    (A, z)

/-- The column loop of `solveLinear`: pivot scan, singularity check
(`if (maxVal < 1e-18) throw`), swap, defensive pivot re-check, elimination. -/
def elimColumns (dim : Nat) : List Nat → Mat × Vec → Except Unit (Mat × Vec)
  | [], s => .ok s
  | i :: rest, (A, z) =>
    let scan := pivotScan A i dim
    if scan.2 < pivotEps then .error ()
    else
      let A1 := if scan.1 ≠ i then swapRows A i scan.1 else A
      let z1 := if scan.1 ≠ i then swapVec z i scan.1 else z
      if |entry A1 i i| < pivotEps then .error ()
      else elimColumns dim rest (elimBelow dim i A1 z1)

/-- Back substitution with the defensive `Singular pivot during
back-substitution` check. -/
def backSubLoop (dim : Nat) (A : Mat) (z : Vec) : List Nat → Vec → Except Unit Vec
  | [], x => .ok x
  | i :: rest, x =>
    let s := (List.range' (i+1) (dim - (i+1))).foldl
      (fun s j => s - entry A i j * vecAt x j) (vecAt z i)
    if |entry A i i| < pivotEps then .error ()
    else backSubLoop dim A z rest (x.set i (s / entry A i i))

/-- `solveLinear(matrixIn, rhsIn)`: Gaussian elimination with partial
pivoting; `.error` is the thrown `Singular matrix` / `Singular pivot`. -/
def solveLinear (Ain : Mat) (zin : Vec) : Except Unit Vec :=
  let dim := Ain.length
  if dim = 0 then .ok []
  else
    match elimColumns dim (List.range dim) (Ain, zin) with
    | .error _ => .error ()
    | .ok s => backSubLoop dim s.1 s.2 (List.range dim).reverse (List.replicate dim 0)

/-- Resistor stamp `{n1, n2, R, block?, meta?}`; `blockIdx` is the script
level back-reference (index into the workspace block list) and `isLed` the
script's `meta: {type:'led'}` marker. -/
structure RStamp where
  n1 : Option Nat
  n2 : Option Nat
  R : ℚ
  blockIdx : Option Nat := none
  isLed : Bool := false
deriving DecidableEq, Repr

/-- Voltage-source stamp `{nPlus, nMinus, V, block?}`. -/
structure VStamp where
  nPlus : Option Nat
  nMinus : Option Nat
  V : ℚ
  blockIdx : Option Nat := none
deriving DecidableEq, Repr

/-- Diode stamp `{n1, n2, Is?, nVt?, Vf?, block?}`. -/
structure DStamp where
  n1 : Option Nat
  n2 : Option Nat
  Is : Option ℚ := none
  nVt : Option ℚ := none
  Vf : Option ℚ := none
  blockIdx : Option Nat := none
deriving DecidableEq, Repr

def zeroMat (n m : Nat) : Mat := List.replicate n (List.replicate m 0)

def matAdd (A : Mat) (i j : Nat) (v : ℚ) : Mat :=
  A.set i ((A.getD i []).set j ((A.getD i []).getD j 0 + v))

def matSet (A : Mat) (i j : Nat) (v : ℚ) : Mat :=
  A.set i ((A.getD i []).set j v)

def vecAdd (z : Vec) (i : Nat) (v : ℚ) : Vec := z.set i (z.getD i 0 + v)

/-- Resistor stamping (`resistorList.forEach`): skip null nets, conductance
`1/(r.R||1e-12)`, four-point stamp, or diagonal only for a self-loop. -/
def stampResistor (G : Mat) (r : RStamp) : Mat :=
  match r.n1, r.n2 with
  | some a, some b =>
    let g := 1 / jsOr r.R (1 / 10 ^ 12)
    if a ≠ b then
      matAdd (matAdd (matAdd (matAdd G a a g) b b g) a b (-g)) b a (-g)
    else matAdd G a a g
  | _, _ => G

def MAXG : ℚ := 10 ^ 12

/-- Diode linearization (`diodeList.forEach`): clamp the exponent argument to
[-40, 40], cap the companion conductance at `1e12`, stamp `Gd` and the
equivalent current `Ieq = Icalc - Gd*Vd`. -/
def stampDiode (expQ : ℚ → ℚ) (Vguess : Vec) (s : Mat × Vec) (d : DStamp) :
    Mat × Vec :=
  match d.n1, d.n2 with
  | some a, some b =>
    let Vd := vecAt Vguess a - vecAt Vguess b
    let Is := d.Is.getD (1 / 10 ^ 12)
    let nVt := match d.nVt with
      | none => 26 / 1000
      | some v => if v = 0 then 26 / 1000 else v
    let dExp := expQ (max (-40) (min 40 (Vd / nVt)))
    let G0 := (Is / nVt) * dExp
    let Gd := if G0 > MAXG then min G0 MAXG else G0
    let Ieq := Is * (dExp - 1) - Gd * Vd
    if a ≠ b then
      (matAdd (matAdd (matAdd (matAdd s.1 a a Gd) b b Gd) a b (-Gd)) b a (-Gd),
       vecAdd (vecAdd s.2 a (-Ieq)) b Ieq)
    else (matAdd s.1 a a Gd, vecAdd s.2 a (-Ieq))
  | _, _ => s

/-- The `Bmatrix` of voltage sources: `B[nPlus][j]=1`, `B[nMinus][j]=-1`. -/
def stampSources (N M : Nat) (vs : List VStamp) : Mat :=
  vs.enum.foldl
    (fun B jv =>
      let B1 := match jv.2.nPlus with
        | some a => matSet B a jv.1 1
        | none => B
      match jv.2.nMinus with
      | some b => matSet B1 b jv.1 (-1)
      | none => B1)
    (zeroMat N M)

/-- The assembled `(N+M)×(N+M)` MNA matrix: `G` top-left, `B` top-right,
`Bᵀ` bottom-left, zeros bottom-right. -/
def assembleA (N M : Nat) (G B : Mat) : Mat :=
  (List.range (N + M)).map (fun i =>
    (List.range (N + M)).map (fun j =>
      if i < N then (if j < N then entry G i j else entry B i (j - N))
      else (if j < N then entry B j (i - N) else 0)))

/-- The assembled RHS: node currents then source voltages. -/
def assembleZ (N : Nat) (M : Nat) (Ivec E : Vec) : Vec :=
  (List.range (N + M)).map (fun i => if i < N then vecAt Ivec i else vecAt E (i - N))

/-- One iteration's system build (lines 147-185). -/
def buildSystem (expQ : ℚ → ℚ) (N : Nat) (rs : List RStamp) (vss : List VStamp)
    (ds : List DStamp) (Vguess : Vec) : Mat × Vec :=
  let G0 := rs.foldl stampResistor (zeroMat N N)
  let GI := ds.foldl (stampDiode expQ Vguess) (G0, List.replicate N 0)
  let B := stampSources N vss.length vss
  let E := vss.map (·.V)
  (assembleA N vss.length GI.1 B, assembleZ N vss.length GI.2 E)

/-- The damping update (line 191): `vUpd = damping*vN + (1-damping)*vOld`,
tracking `maxDiff = max |vUpd - vOld|`. -/
def dampUpdate (damping : ℚ) (N : Nat) (Vguess Vnew : Vec) : Vec × ℚ :=
  (List.range N).foldl
    (fun (s : Vec × ℚ) i =>
      let vOld := vecAt s.1 i
      let vUpd := damping * vecAt Vnew i + (1 - damping) * vOld
      (s.1.set i vUpd, max s.2 |vUpd - vOld|))
    (Vguess, 0)

/-- The Newton-Raphson iteration (lines 146-193).  `.error` models the caught
`linear-solve-failed` return; `.ok none` means the loop never produced a
solution vector; `.ok (some x)` carries the last raw solution. -/
def mnaLoop (expQ : ℚ → ℚ) (N : Nat) (rs : List RStamp) (vss : List VStamp)
    (ds : List DStamp) (tol damping : ℚ) :
    Nat → Vec → Option Vec → Except Unit (Option Vec)
  | 0, _, xPrev => .ok xPrev
  | fuel+1, Vguess, _ =>
    let Az := buildSystem expQ N rs vss ds Vguess
    match solveLinear Az.1 Az.2 with
    | .error _ => .error ()
    | .ok x =>
      let upd := dampUpdate damping N Vguess (x.take N)
      if upd.2 < tol then .ok (some x)
      else mnaLoop expQ N rs vss ds tol damping fuel upd.1 (some x)

/-- Per-resistor result `{I, v1, v2}` (`{I:0}` for a null net). -/
structure RRes where
  I : ℚ
  v1 : Option ℚ := none
  v2 : Option ℚ := none
deriving DecidableEq, Repr

/-- Per-diode result `{I, Vd}` (`{I:0}` for a null net). -/
structure DRes where
  I : ℚ
  Vd : Option ℚ := none
deriving DecidableEq, Repr

structure MNAResult where
  success : Bool
  reason : Option String := none
  V : Vec := []
  J : Vec := []
  resistorResults : List RRes := []
  diodeResults : List DRes := []
deriving DecidableEq, Repr

structure MNAOpts where
  maxIter : Option Nat := none
  tol : Option ℚ := none
  damping : Option ℚ := none
deriving DecidableEq, Repr

/-- `options.maxIter || 50` (`0` is falsy). -/
def optMaxIter (o : MNAOpts) : Nat :=
  match o.maxIter with
  | none => 50
  | some v => if v = 0 then 50 else v

/-- `options.tol || 1e-6`. -/
def optTol (o : MNAOpts) : ℚ :=
  match o.tol with
  | none => 1 / 10 ^ 6
  | some v => if v = 0 then 1 / 10 ^ 6 else v

/-- `(options.damping==null)?0.6:options.damping`. -/
def optDamping (o : MNAOpts) : ℚ := o.damping.getD (3 / 5)

/-- `CircuitSolver.solveMNA(numNodes, resistorList, voltageSourceList,
diodeList, options)`. -/
def solveMNA (expQ : ℚ → ℚ) (numNodes : Nat) (resistorList : List RStamp)
    (voltageSourceList : List VStamp) (diodeList : List DStamp)
    (options : MNAOpts) : MNAResult :=
  match mnaLoop expQ numNodes resistorList voltageSourceList diodeList
      (optTol options) (optDamping options) (optMaxIter options)
      (List.replicate numNodes 0) none with
  | .error _ => { success := false, reason := some "linear-solve-failed" }
  | .ok none => { success := false }
  | .ok (some x) =>
    let nodeVoltages := x.take numNodes
    { success := true
      V := nodeVoltages
      J := x.drop numNodes
      resistorResults := resistorList.map (fun r =>
        match r.n1, r.n2 with
        | some a, some b =>
          let v1 := vecAt nodeVoltages a
          let v2 := vecAt nodeVoltages b
          { I := (v1 - v2) / jsOr r.R (1 / 10 ^ 12), v1 := some v1, v2 := some v2 }
        | _, _ => { I := 0 })
      diodeResults := diodeList.map (fun d =>
        match d.n1, d.n2 with
        | some a, some b =>
          let v1 := vecAt nodeVoltages a
          let v2 := vecAt nodeVoltages b
          { I := d.Is.getD (1 / 10 ^ 12) *
              (expQ ((v1 - v2) / jsOr (d.nVt.getD 0) (26 / 1000)) - 1)
            Vd := some (v1 - v2) }
        | _, _ => { I := 0 }) }

/-- Stand-in for `Math.exp` wherever its value is irrelevant (all evaluations
below run with an empty diode list, the only place `expQ` is consulted). -/
def expAny : ℚ → ℚ := fun _ => 0

instance {ε α : Type} [DecidableEq ε] [DecidableEq α] : DecidableEq (Except ε α) := fun a b =>
  match a, b with
  | .ok x, .ok y => if h : x = y then .isTrue (by rw [h]) else .isFalse (by simp [h])
  | .error x, .error y => if h : x = y then .isTrue (by rw [h]) else .isFalse (by simp [h])
  | .ok _, .error _ => .isFalse (by simp)
  | .error _, .ok _ => .isFalse (by simp)

theorem optMaxIter_pos (o : MNAOpts) : 1 ≤ optMaxIter o := by
  rcases o with ⟨mi, t, d⟩
  unfold optMaxIter
  rcases mi with _ | v
  · dsimp only; omega
  · dsimp only
    split <;> omega

/-- The Newton loop never yields `.ok none` once at least one iteration runs
(or a previous solution exists): every loop exit carries either the caught
linear-solve failure or the last raw solution vector. -/
theorem mnaLoop_no_ok_none (expQ : ℚ → ℚ) (N : Nat) (rs : List RStamp)
    (vss : List VStamp) (ds : List DStamp) (tol damping : ℚ) :
    ∀ fuel Vg prev, (1 ≤ fuel ∨ prev.isSome) →
      mnaLoop expQ N rs vss ds tol damping fuel Vg prev ≠ .ok none := by
  intro fuel
  induction fuel with
  | zero =>
    intro Vg prev h
    rcases h with h | h
    · omega
    · rcases prev with _ | x
      · simp at h
      · simp [mnaLoop]
  | succ fuel ih =>
    intro Vg prev _
    simp only [mnaLoop]
    rcases hsl : solveLinear (buildSystem expQ N rs vss ds Vg).1
        (buildSystem expQ N rs vss ds Vg).2 with u | x
    · simp [hsl]
    · simp only [hsl]
      split
      · simp
      · exact ih _ _ (Or.inr rfl)

/-- C1 (amended): `solveMNA` reports failure only when a linear solve threw
(`reason: 'linear-solve-failed'`); reaching the iteration cap without meeting
the tolerance does not produce a failure result — the last raw solution is
returned with `success: true`. -/
theorem mna_failure_only_from_linear_solve (expQ : ℚ → ℚ) (N : Nat)
    (rs : List RStamp) (vss : List VStamp) (ds : List DStamp) (opts : MNAOpts)
    (h : (solveMNA expQ N rs vss ds opts).success = false) :
    (solveMNA expQ N rs vss ds opts).reason = some "linear-solve-failed" := by
  rcases hm : mnaLoop expQ N rs vss ds (optTol opts) (optDamping opts)
      (optMaxIter opts) (List.replicate N 0) none with u | o
  · simp [solveMNA, hm]
  · rcases o with _ | x
    · exact absurd hm (mnaLoop_no_ok_none expQ N rs vss ds (optTol opts)
        (optDamping opts) (optMaxIter opts) (List.replicate N 0) none
        (Or.inl (optMaxIter_pos opts)))
    · rw [solveMNA, hm] at h
      simp at h

/-- Witness for the amended C1 at a concrete input (one node, no stamps: the
1×1 conductance matrix is all zeros, so the first linear solve throws). -/
theorem mna_failure_only_from_linear_solve_witness :
    (solveMNA expAny 1 [] [] [] {}).reason = some "linear-solve-failed" :=
  mna_failure_only_from_linear_solve expAny 1 [] [] [] {}
    (by decide)

/-- C1 (counterexample): calling `solveMNA` with `maxIter = 1` on the
single-node network driven by a 5 V source reaches the iteration cap with a
maximum damped voltage change of `3`, far above the default tolerance
`1e-6` — yet the result is `success: true` with the unconverged solution
`V = [5]`, not the failure the claim requires. -/
theorem mna_nonconvergence_reports_success :
    (dampUpdate (3/5) 1 (List.replicate 1 0) [5]).2 = 3 ∧
    ¬((3 : ℚ) < 1 / 10 ^ 6) ∧
    (solveMNA expAny 1 [] [{ nPlus := some 0, nMinus := none, V := 5 }] []
      { maxIter := some 1 }).success = true ∧
    (solveMNA expAny 1 [] [{ nPlus := some 0, nMinus := none, V := 5 }] []
      { maxIter := some 1 }).V = [5] := by
  refine ⟨?_, ?_, ?_, ?_⟩ <;> decide

/-! ## Workspace model (src/script.js)

Blocks are identified by their position in the workspace block list; `left` /
`right` are connector indices into the connector list (`none` when the block
lacks that terminal).  Dataset attributes hold the numeric value of the
stored string, `none` when the attribute is absent. -/

inductive BlockType
  | resistor
  | battery
  | led
  | switchT
  | other
deriving DecidableEq, Repr

structure Block where
  type : BlockType
  left : Option Nat
  right : Option Nat
  resistance : Option ℚ := none
  voltage : Option ℚ := none
  forwardVoltage : Option ℚ := none
  stateOff : Bool := false       -- `dataset.state === 'off'`
deriving DecidableEq, Repr

instance : Inhabited Block := ⟨{ type := .other, left := none, right := none }⟩

structure Workspace where
  nConnectors : Nat
  blocks : List Block
  connections : List (Nat × Nat)
deriving Repr

/-- Per-block output annotations (`dataset.current`, `dataset.voltageDrop`,
`dataset.powered` / the `powered` class). -/
structure Ann where
  current : Option ℚ := none
  voltageDrop : Option ℚ := none
  powered : Bool := false
deriving DecidableEq, Repr

instance : Inhabited Ann := ⟨{}⟩

def setAnn (anns : List Ann) (i : Nat) (f : Ann → Ann) : List Ann :=
  anns.set i (f (anns.getD i {}))

/-- `Number(str) || d` for an optional dataset attribute: absent (`NaN`) and
`0` both fall back to the default. -/
def jsNumOr (v : Option ℚ) (d : ℚ) : ℚ :=
  match v with
  | none => d
  | some x => if x = 0 then d else x

/-- Line 935: reset defaults.  `!b.dataset.voltage` is true only when the
attribute is absent (a stored "0" is a truthy string). -/
def resetAndDefault (b : Block) : Block :=
  { b with
    voltage := if b.type = .battery ∧ b.voltage = none then some 5 else b.voltage
    resistance := if b.type = .resistor ∧ b.resistance = none then some 100
      else b.resistance
    forwardVoltage := if b.type = .led ∧ b.forwardVoltage = none then some 2
      else b.forwardVoltage }

/-- `netFor(conn)` (lines 946 / 1154): look up the connector's union-find
root and assign it the next dense id on first sight.  The `netMap` is an
insertion-ordered association list root → dense id (`netCounter` equals its
size, since entries are never removed). -/
def netFor (netIdL : List Nat) (st : List (Nat × Nat)) (conn : Nat) :
    List (Nat × Nat) × Nat :=
  let r := netIdL.getD conn 0
  match st.lookup r with
  | some v => (st, v)
  | none => (st ++ [(r, st.length)], st.length)

structure StampSet where
  resistors : List RStamp := []
  vSources : List VStamp := []
  diodes : List DStamp := []
deriving DecidableEq, Repr

/-- The component translation of `evaluateCircuit` (lines 963-974): resistor,
battery and LED blocks are stamped (LEDs as plain resistor stamps with
`meta: {type:'led'}`); every block with both terminals calls `netFor` on both
terminals first (growing the dense net map); all other types — switches
included — produce no stamp. -/
def collectEvalFrom (netIdL : List Nat) :
    List Block → Nat → List (Nat × Nat) → StampSet →
      List (Nat × Nat) × StampSet
  | [], _, st, acc => (st, acc)
  | b :: bs, idx, st, acc =>
    match b.left, b.right with
    | some l, some r =>
      let s1 := netFor netIdL st l
      let s2 := netFor netIdL s1.1 r
      let na := s1.2
      let nb := s2.2
      let acc2 : StampSet :=
        match b.type with
        | .resistor =>
          { acc with resistors := acc.resistors ++
              [{ n1 := some na, n2 := some nb,
                 R := jsNumOr b.resistance (1 / 10 ^ 12), blockIdx := some idx }] }
        | .battery =>
          { acc with vSources := acc.vSources ++
              [{ nPlus := some nb, nMinus := some na,
                 V := jsNumOr b.voltage 5, blockIdx := some idx }] }
        | .led =>
          { acc with resistors := acc.resistors ++
              [{ n1 := some na, n2 := some nb,
                 R := jsNumOr b.resistance 100, blockIdx := some idx,
                 isLed := true }] }
        | _ => acc
      collectEvalFrom netIdL bs (idx+1) s2.1 acc2
    | _, _ => collectEvalFrom netIdL bs (idx+1) st acc

/-- The component translation of `buildCircuitModel` (lines 1159-1177): like
the `evaluateCircuit` translation but with a switch case (near-zero `1e-6`
resistance when on, `1e12` when off), and no dataset defaulting pass. -/
def collectModelFrom (netIdL : List Nat) :
    List Block → Nat → List (Nat × Nat) → StampSet →
      List (Nat × Nat) × StampSet
  | [], _, st, acc => (st, acc)
  | b :: bs, idx, st, acc =>
    match b.left, b.right with
    | some l, some r =>
      let s1 := netFor netIdL st l
      let s2 := netFor netIdL s1.1 r
      let na := s1.2
      let nb := s2.2
      let acc2 : StampSet :=
        match b.type with
        | .resistor =>
          { acc with resistors := acc.resistors ++
              [{ n1 := some na, n2 := some nb,
                 R := jsNumOr b.resistance (1 / 10 ^ 12), blockIdx := some idx }] }
        | .battery =>
          { acc with vSources := acc.vSources ++
              [{ nPlus := some nb, nMinus := some na,
                 V := jsNumOr b.voltage 5, blockIdx := some idx }] }
        | .switchT =>
          { acc with resistors := acc.resistors ++
              [{ n1 := some na, n2 := some nb,
                 R := if ¬b.stateOff then 1 / 10 ^ 6 else 10 ^ 12,
                 blockIdx := some idx }] }
        | .led =>
          { acc with resistors := acc.resistors ++
              [{ n1 := some na, n2 := some nb,
                 R := jsNumOr b.resistance 100, blockIdx := some idx,
                 isLed := true }] }
        | .other => acc
      collectModelFrom netIdL bs (idx+1) s2.1 acc2
    | _, _ => collectModelFrom netIdL bs (idx+1) st acc

/-- `buildCircuitModel()`: union-find over the wires, then the translation
with the switch case.  Returns the dense net map and the stamp lists. -/
def buildCircuitModel (ws : Workspace) : List (Nat × Nat) × StampSet :=
  collectModelFrom (netIds ws.nConnectors ws.connections) ws.blocks 0 [] {}

/-! ## fallbackSimplePowering (src/script.js lines 1305-1360)

Connector-level adjacency: wire edges first (in connection order), then one
component edge per two-terminal block, matching the `addEdgeConn` insertion
order.  An adjacency entry is `(otherConnector, blockIdx?)`, `none` marking a
wire edge. -/

def adjPush (adj : List (Nat × List (Nat × Option Nat))) (k : Nat)
    (v : Nat × Option Nat) : List (Nat × List (Nat × Option Nat)) :=
  match adj.lookup k with
  | some _ => adj.map (fun e => if e.1 = k then (e.1, e.2 ++ [v]) else e)
  | none => adj ++ [(k, [v])]

def addEdgeConn (adj : List (Nat × List (Nat × Option Nat))) (a b : Nat)
    (meta : Option Nat) : List (Nat × List (Nat × Option Nat)) :=
  adjPush (adjPush adj a (b, meta)) b (a, meta)

def connAdj (ws : Workspace) : List (Nat × List (Nat × Option Nat)) :=
  let adj0 := ws.connections.foldl (fun adj c => addEdgeConn adj c.1 c.2 none) []
  (ws.blocks.enum.foldl
    (fun adj bi =>
      match bi.2.left, bi.2.right with
      | some l, some r => addEdgeConn adj l r (some bi.1)
      | _, _ => adj)
    adj0)

def lookupAdj (adj : List (Nat × List (Nat × Option Nat))) (c : Nat) :
    List (Nat × Option Nat) := (adj.lookup c).getD []

/-- The BFS of `fallbackSimplePowering`: FIFO queue of
`{node, cameThroughLED}`, visited-at-push; on first dequeue of `neg` the loop
breaks, `found` being the dequeued `cameThroughLED` flag. -/
def fallbackBFS (blocks : List Block) (adj : List (Nat × List (Nat × Option Nat)))
    (neg : Nat) : Nat → List (Nat × Bool) → List Nat → Bool
  | 0, _, _ => false
  | _+1, [], _ => false
  | fuel+1, (node, came) :: rest, visited =>
    if node = neg then came
    else
      let step := (lookupAdj adj node).foldl
        (fun (s : List (Nat × Bool) × List Nat) nb =>
          if s.2.contains nb.1 then s
          else
            let came2 := came || (match nb.2 with
              | some bi => decide ((blocks.getD bi default).type = .led)
              | none => false)
            (s.1 ++ [(nb.1, came2)], s.2 ++ [nb.1]))
        ([], visited)
      fallbackBFS blocks adj neg fuel (rest ++ step.1) step.2

/-- Reachability closure (the two `dfs` helpers); worklist driven, fuel
covers one step per node plus one per adjacency entry. -/
def connClosure (adj : List (Nat × List (Nat × Option Nat))) :
    Nat → List Nat → List Nat → List Nat
  | 0, _, acc => acc
  | _+1, [], acc => acc
  | fuel+1, x :: rest, acc =>
    if acc.contains x then connClosure adj fuel rest acc
    else connClosure adj fuel (((lookupAdj adj x).map (·.1)) ++ rest) (acc ++ [x])

def adjSize (adj : List (Nat × List (Nat × Option Nat))) : Nat :=
  adj.foldl (fun n e => n + e.2.length) 0

/-- `fallbackSimplePowering()`: for each battery, BFS from its positive
(right) terminal; if the negative terminal is first reached on a
through-an-LED path, mark every LED whose two terminals are reachable from
both battery terminals as powered and attach the conservative `Iest = V/100`
and forward-voltage estimates. -/
def fallbackSimplePowering (ws : Workspace) (blocks : List Block)
    (anns : List Ann) : List Ann :=
  let adj := connAdj { ws with blocks := blocks }
  let fuelB := ws.nConnectors + 2
  let fuelC := ws.nConnectors + adjSize adj + 2
  (blocks.enum.filter (fun bi => bi.2.type = .battery)).foldl
    (fun anns bi =>
      let batt := bi.2
      match batt.right, batt.left with
      | some pos, some neg =>
        let found := fallbackBFS blocks adj neg fuelB [(pos, false)] [pos]
        if found then
          let reachPos := connClosure adj fuelC [pos] []
          let reachNeg := connClosure adj fuelC [neg] []
          let vbat := jsNumOr batt.voltage 5
          let iest := |vbat| / 100
          blocks.enum.foldl
            (fun anns lb =>
              if lb.2.type = .led then
                match lb.2.left, lb.2.right with
                | some l, some r =>
                  if reachPos.contains l ∧ reachPos.contains r ∧
                      reachNeg.contains l ∧ reachNeg.contains r then
                    setAnn anns lb.1 (fun a =>
                      { a with
                        powered := true
                        current := if a.current = none then some iest else a.current
                        voltageDrop := if a.voltageDrop = none then
                          some (lb.2.forwardVoltage.getD 2) else a.voltageDrop })
                  else anns
                | _, _ => anns
              else anns)
            anns
        else anns
      | _, _ => anns)
    anns

/-! ## Result annotation (src/script.js lines 1010-1140) -/

/-- An entry of `sol.resistorResults` as read by the annotation loop at lines
1015-1021: `rres.meta && rres.meta.block` and `rres.Vdrop`.  The MNA solver's
resistor results carry neither a `meta` back-reference nor a `Vdrop` field,
so evaluateCircuit always feeds this loop entries with `block := none`. -/
structure ScriptRRes where
  block : Option Nat := none
  I : ℚ := 0
  Vdrop : Option ℚ := none
deriving DecidableEq, Repr

/-- Lines 1015-1022: write `|Vdrop||0|` and `|I|` onto the back-referenced
block; entries without a block reference are skipped. -/
def applyResistorAnn (anns : List Ann) (r : ScriptRRes) : List Ann :=
  match r.block with
  | none => anns
  | some bi => setAnn anns bi (fun a =>
      { a with voltageDrop := some |r.Vdrop.getD 0|, current := some |r.I| })

def applyResistorAnns (anns : List Ann) (rs : List ScriptRRes) : List Ann :=
  rs.foldl applyResistorAnn anns

/-- Lines 1023-1048: per-diode annotation.  `meta = diodes[idx]`; the stored
voltage drop is the signed `Vd`, the stored current `|I|`; powered requires
`Vd >= Vf && I > 1e-6`. -/
def applyDiodeAnns (blocks : List Block) (ds : List DStamp) (dres : List DRes)
    (anns : List Ann) : List Ann :=
  dres.enum.foldl
    (fun anns idres =>
      match ds.get? idres.1 with
      | none => anns
      | some meta =>
        match meta.blockIdx with
        | none => anns
        | some bi =>
          let I := |idres.2.I|
          let Vd := idres.2.Vd.getD 0
          let Vf := match meta.Vf with
            | some v => if v ≠ 0 then v
                else (blocks.getD bi default).forwardVoltage.getD 2
            | none => (blocks.getD bi default).forwardVoltage.getD 2
          setAnn anns bi (fun a =>
            { a with
              voltageDrop := some Vd
              current := some I
              powered := decide (Vd ≥ Vf ∧ I > 1 / 10 ^ 6) }))
    anns

/-- Lines 1050-1052: battery annotation `current = |J[idx]|`,
`voltageDrop = vs.V||0`. -/
def applyVSourceAnns (vss : List VStamp) (J : Vec) (anns : List Ann) : List Ann :=
  vss.enum.foldl
    (fun anns iv =>
      match iv.2.blockIdx with
      | none => anns
      | some bi => setAnn anns bi (fun a =>
          { a with current := some |vecAt J iv.1|,
                   voltageDrop := some (jsOr iv.2.V 0) }))
    anns

/-- Lines 1057-1076: the simple LED heuristic over the diode-stamp blocks
(`diodes.map(d => d.block)`); powered when
`(Vd >= Vf && I > 1e-6) || I > 1e-6`, with conservative backfill of absent or
zero estimates. -/
def ledFallbackPass (blocks : List Block) (ds : List DStamp) (anns : List Ann) :
    List Ann :=
  (ds.filterMap (·.blockIdx)).foldl
    (fun anns bi =>
      let a := anns.getD bi {}
      if a.powered then anns
      else
        let I := |a.current.getD 0|
        let Vd := |a.voltageDrop.getD 0|
        let Vf := (blocks.getD bi default).forwardVoltage.getD 2
        if (Vd ≥ Vf ∧ I > 1 / 10 ^ 6) ∨ I > 1 / 10 ^ 6 then
          setAnn anns bi (fun a =>
            { a with
              powered := true
              voltageDrop := if a.voltageDrop = none ∨ a.voltageDrop = some 0
                then some Vf else a.voltageDrop
              current := if a.current = none ∨ a.current = some 0
                then some (max I (1 / 10 ^ 4)) else a.current })
        else anns)
    anns

/-! Lines 1078-1137: the net-level path heuristic.  Adjacency over nets from
resistor stamps (all tagged `resistor`, LED-proxies included) and diode
stamps (tagged `led`); BFS path search per battery; LEDs traversed
anode-to-cathode on a sufficiently conducting path are marked powered. -/

structure NetPathEdge where
  isLed : Bool
  R : ℚ := 0
  blockIdx : Option Nat := none
  Vf : ℚ := 2
  n1 : Option Nat := none
  n2 : Option Nat := none
deriving DecidableEq, Repr

def netAdjPush (adj : List (Nat × List (Nat × NetPathEdge))) (k : Nat)
    (v : Nat × NetPathEdge) : List (Nat × List (Nat × NetPathEdge)) :=
  match adj.lookup k with
  | some _ => adj.map (fun e => if e.1 = k then (e.1, e.2 ++ [v]) else e)
  | none => adj ++ [(k, [v])]

def netAddAdj (adj : List (Nat × List (Nat × NetPathEdge)))
    (a b : Option Nat) (meta : NetPathEdge) :
    List (Nat × List (Nat × NetPathEdge)) :=
  match a, b with
  | some a, some b => netAdjPush (netAdjPush adj a (b, meta)) b (a, meta)
  | _, _ => adj

def lookupNetAdj (adj : List (Nat × List (Nat × NetPathEdge))) (c : Nat) :
    List (Nat × NetPathEdge) := (adj.lookup c).getD []

def heuristicAdj (rs : List RStamp) (ds : List DStamp) (blocks : List Block) :
    List (Nat × List (Nat × NetPathEdge)) :=
  let adj0 := rs.enum.foldl
    (fun adj ir => netAddAdj adj ir.2.n1 ir.2.n2
      { isLed := false, R := ir.2.R, blockIdx := ir.2.blockIdx })
    []
  ds.enum.foldl
    (fun adj id => netAddAdj adj id.2.n1 id.2.n2
      { isLed := true
        R := 0
        blockIdx := id.2.blockIdx
        Vf := match id.2.Vf with
          | some v => if v ≠ 0 then v
              else (match id.2.blockIdx with
                | some bi => (blocks.getD bi default).forwardVoltage.getD 2
                | none => 2)
          | none => match id.2.blockIdx with
              | some bi => (blocks.getD bi default).forwardVoltage.getD 2
              | none => 2
        n1 := id.2.n1
        n2 := id.2.n2 })
    adj0

/-- Walk the `seen` map backwards from the end net, building the path of
`{net, via}` entries (the reconstruction loop inside `findPath`). -/
def reconPath (seen : List (Nat × (Option Nat × Option NetPathEdge)))
    (startNet : Nat) :
    Nat → Nat → List (Nat × Option NetPathEdge) →
      List (Nat × Option NetPathEdge)
  | 0, _, acc => acc
  | fuel+1, cur, acc =>
    if cur = startNet then (startNet, none) :: acc
    else
      match seen.lookup cur with
      | none => acc
      | some pv => reconPath seen startNet fuel (pv.1.getD 0) ((cur, pv.2) :: acc)

/-- Process the neighbour list of the current BFS node; either the end net is
discovered (`Sum.inl` carrying the final `seen` map) or the queue and `seen`
map grow (`Sum.inr`). -/
def scanNbrs (endNet cur : Nat) :
    List (Nat × NetPathEdge) → List (Nat × Option NetPathEdge) →
      List (Nat × (Option Nat × Option NetPathEdge)) →
      Sum (List (Nat × (Option Nat × Option NetPathEdge)))
          (List (Nat × Option NetPathEdge) ×
            List (Nat × (Option Nat × Option NetPathEdge)))
  | [], q, seen => Sum.inr (q, seen)
  | e :: es, q, seen =>
    if (seen.lookup e.1).isSome then scanNbrs endNet cur es q seen
    else
      let seen2 := seen ++ [(e.1, (some cur, some e.2))]
      if e.1 = endNet then Sum.inl seen2
      else scanNbrs endNet cur es (q ++ [(e.1, some e.2)]) seen2

/-- The BFS of `findPath` (lines 1089-1099). -/
def findPathGo (adj : List (Nat × List (Nat × NetPathEdge)))
    (startNet endNet : Nat) :
    Nat → List (Nat × Option NetPathEdge) →
      List (Nat × (Option Nat × Option NetPathEdge)) →
      Option (List (Nat × Option NetPathEdge))
  | 0, _, _ => none
  | _+1, [], _ => none
  | fuel+1, cur :: rest, seen =>
    match scanNbrs endNet cur.1 (lookupNetAdj adj cur.1) rest seen with
    | Sum.inl seenF =>
      some (reconPath seenF startNet (seenF.length + 1) endNet [])
    | Sum.inr qs => findPathGo adj startNet endNet fuel qs.1 qs.2

def findPath (adj : List (Nat × List (Nat × NetPathEdge)))
    (startNet endNet : Nat) (fuel : Nat) :
    Option (List (Nat × Option NetPathEdge)) :=
  if startNet = endNet then none
  else findPathGo adj startNet endNet fuel [(startNet, none)]
    [(startNet, (none, none))]

/-- Lines 1101-1136: for each battery, find a non-trivial plus-to-minus path,
sum the series resistance, collect LEDs with their traversal orientation, and
mark the forward-oriented ones on a sufficiently conducting path. -/
def pathPowerHeuristic (blocks : List Block) (rs : List RStamp)
    (ds : List DStamp) (vss : List VStamp) (nNets : Nat) (anns : List Ann) :
    List Ann :=
  let adj := heuristicAdj rs ds blocks
  vss.foldl
    (fun anns vs =>
      match vs.nPlus, vs.nMinus with
      | some p, some m =>
        match findPath adj p m (nNets + 2) with
        | none => anns
        | some path =>
          if path.length < 3 then anns
          else
            let steps := path.zip (path.drop 1)
            let Rsum := steps.foldl
              (fun acc st => match st.2.2 with
                | some via => if via.isLed then acc else acc + via.R
                | none => acc)
              0
            let ledsOnPath := steps.filterMap
              (fun st => match st.2.2 with
                | some via =>
                  if via.isLed then
                    some (via, decide (via.n1 = some st.1.1 ∧ via.n2 = some st.2.1))
                  else none
                | none => none)
            let iest := if Rsum > 0 then |vs.V| / Rsum else 1 / 1000
            if iest > 1 / 10 ^ 6 ∧ ledsOnPath ≠ [] then
              ledsOnPath.foldl
                (fun anns lf =>
                  match lf.1.blockIdx with
                  | none => anns
                  | some bi =>
                    if lf.2 then setAnn anns bi (fun a => { a with powered := true })
                    else anns)
                anns
            else anns
      | _, _ => anns)
    anns

structure EvalResult where
  reason : Option String
  fallbackRan : Bool
  anns : List Ann
deriving DecidableEq, Repr

/-- `evaluateCircuit()` (lines 932-1141): defaults, nets, translation, the
`no-nets` early return, the MNA call with `{maxIter: 60, tol: 1e-8, damping:
0.7}`, fallback on failure (reason `solver-failed`), annotation passes on
success.  The `no-solver` branch (solver script not loaded) and the purely
visual writes (`--led-intensity`, banners, debug logs) are outside the model;
`fallbackRan` records whether `fallbackSimplePowering` executed. -/
def evaluateCircuit (expQ : ℚ → ℚ) (ws : Workspace) : EvalResult :=
  let blocks := ws.blocks.map resetAndDefault
  let anns0 : List Ann := List.replicate blocks.length {}
  let netIdL := netIds ws.nConnectors ws.connections
  let ms := collectEvalFrom netIdL blocks 0 [] {}
  if ms.1.length = 0 then
    { reason := some "no-nets", fallbackRan := false, anns := anns0 }
  else
    let sol := solveMNA expQ ms.1.length ms.2.resistors ms.2.vSources ms.2.diodes
      { maxIter := some 60, tol := some (1 / 10 ^ 8), damping := some (7 / 10) }
    if sol.success then
      let anns1 := applyResistorAnns anns0
        (sol.resistorResults.map (fun r => { I := r.I }))
      let anns2 := applyDiodeAnns blocks ms.2.diodes sol.diodeResults anns1
      let anns3 := applyVSourceAnns ms.2.vSources sol.J anns2
      let anns4 := ledFallbackPass blocks ms.2.diodes anns3
      let anns5 := pathPowerHeuristic blocks ms.2.resistors ms.2.diodes
        ms.2.vSources ms.1.length anns4
      { reason := none, fallbackRan := false, anns := anns5 }
    else
      { reason := some "solver-failed", fallbackRan := true,
        anns := fallbackSimplePowering ws blocks anns0 }

/-! ## applyBasicResults (src/script.js lines 1186-1229) -/

/-- An entry of the fallback solver's `resistorResults` as consumed by
`applyBasicResults`: `meta` is the model stamp carrying the block
back-reference. -/
structure BasicRes where
  meta : RStamp
  idx : Nat := 0
  I : ℚ := 0
  Vdrop : ℚ := 0
deriving DecidableEq, Repr

/-- The second pass of `applyBasicResults` (lines 1210-1226) on one LED
block: powered iff `I > 1e-6 || Vd >= Vf`, with backfill of absent/zero
current and voltage-drop values. -/
def ledPass2 (b : Block) (a : Ann) : Ann :=
  let I := |a.current.getD 0|
  let Vd := |a.voltageDrop.getD 0|
  let Vf := b.forwardVoltage.getD 2
  if I > 1 / 10 ^ 6 ∨ Vd ≥ Vf then
    { a with
      powered := true
      current := if a.current = none ∨ a.current = some 0
        then some (max I (1 / 10 ^ 6)) else a.current
      voltageDrop := if a.voltageDrop = none ∨ a.voltageDrop = some 0
        then some (max Vd Vf) else a.voltageDrop }
  else { a with powered := false }

/-- Iterate `ledPass2` over every LED block (the
`workspace.querySelectorAll('.block[data-type="led"]')` sweep), `k` being the
index of the first block of the remaining list. -/
def ledSweepFrom (blocks : List Block) (k : Nat) (anns : List Ann) : List Ann :=
  match blocks with
  | [] => anns
  | b :: bs =>
    ledSweepFrom bs (k + 1) (if b.type = .led then setAnn anns k (ledPass2 b) else anns)

/-- One step of `applyBasicResults`'s first pass (lines 1189-1194): write
`|I|` / `|Vdrop|` onto the back-referenced block; skip entries without one.
(The `meta.type === 'led'` branch that follows reads a property the stamps do
not carry — the tag lives at `meta.meta.type` — so it never fires.) -/
def basicResStep (anns : List Ann) (rr : BasicRes) : List Ann :=
  match rr.meta.blockIdx with
  | none => anns
  | some bi => setAnn anns bi (fun a =>
      { a with current := some |rr.I|, voltageDrop := some |rr.Vdrop| })

/-- `applyBasicResults(results)`: the first pass over `resistorResults`, then
the sweep deciding every LED block's powered flag. -/
def applyBasicResults (blocks : List Block) (results : List BasicRes)
    (anns : List Ann) : List Ann :=
  ledSweepFrom blocks 0 (results.foldl basicResStep anns)

theorem setAnn_getD_self {anns : List Ann} {i : Nat} {f : Ann → Ann}
    (h : i < anns.length) : (setAnn anns i f).getD i {} = f (anns.getD i {}) := by
  unfold setAnn
  rw [List.getD_eq_getElem?_getD, List.getElem?_set_self (by simpa using h),
    List.getD_eq_getElem?_getD, List.getElem?_eq_getElem h]
  rfl

theorem setAnn_getD_ne {anns : List Ann} {i j : Nat} {f : Ann → Ann}
    (h : j ≠ i) : (setAnn anns i f).getD j {} = anns.getD j {} := by
  unfold setAnn
  rw [List.getD_eq_getElem?_getD, List.getD_eq_getElem?_getD,
    List.getElem?_set_ne (by omega), ← List.getD_eq_getElem?_getD]

theorem setAnn_length {anns : List Ann} {i : Nat} {f : Ann → Ann} :
    (setAnn anns i f).length = anns.length := by
  simp [setAnn]

theorem ledSweepFrom_getD_lt {i : Nat} :
    ∀ (bs : List Block) (k : Nat) (anns : List Ann), i < k →
      (ledSweepFrom bs k anns).getD i {} = anns.getD i {} := by
  intro bs
  induction bs with
  | nil => intro k anns _; rfl
  | cons b bs ih =>
    intro k anns hik
    rw [ledSweepFrom]
    rw [ih (k + 1) _ (by omega)]
    by_cases hb : b.type = .led
    · rw [if_pos hb, setAnn_getD_ne (by omega)]
    · rw [if_neg hb]

theorem ledSweepFrom_length :
    ∀ (bs : List Block) (k : Nat) (anns : List Ann),
      (ledSweepFrom bs k anns).length = anns.length := by
  intro bs
  induction bs with
  | nil => intro k anns; rfl
  | cons b bs ih =>
    intro k anns
    rw [ledSweepFrom, ih]
    by_cases hb : b.type = .led
    · rw [if_pos hb, setAnn_length]
    · rw [if_neg hb]

/-- Characterization of the LED sweep at a block position. -/
theorem ledSweepFrom_getD :
    ∀ (bs : List Block) (k : Nat) (anns : List Ann) (j : Nat),
      k + j < anns.length →
      (ledSweepFrom bs k anns).getD (k + j) {} =
        (match bs.get? j with
          | some b => if b.type = .led then ledPass2 b (anns.getD (k + j) {})
              else anns.getD (k + j) {}
          | none => anns.getD (k + j) {}) := by
  intro bs
  induction bs with
  | nil => intro k anns j _; rfl
  | cons b bs ih =>
    intro k anns j hlen
    rcases j with _ | j
    · rw [Nat.add_zero] at hlen ⊢
      rw [ledSweepFrom]
      simp only [List.get?_cons_zero]
      by_cases hb : b.type = .led
      · rw [if_pos hb, if_pos hb,
          ledSweepFrom_getD_lt bs (k + 1) _ (by omega),
          setAnn_getD_self hlen]
      · rw [if_neg hb, if_neg hb,
          ledSweepFrom_getD_lt bs (k + 1) _ (by omega)]
    · rw [ledSweepFrom]
      simp only [List.get?_cons_succ]
      have hstep : k + (j + 1) = (k + 1) + j := by omega
      by_cases hb : b.type = .led
      · rw [if_pos hb, hstep, ih (k + 1) _ j (by rw [setAnn_length]; omega),
          setAnn_getD_ne (by omega)]
      · rw [if_neg hb, hstep, ih (k + 1) _ j (by omega)]

/-! ## C3/C4: concrete workspaces and the no-nets branch -/

theorem netFor_length_ge {netIdL : List Nat} {st : List (Nat × Nat)} {c : Nat} :
    st.length ≤ (netFor netIdL st c).1.length := by
  unfold netFor
  dsimp only
  split
  · exact le_refl _
  · simp

theorem netFor_ne_nil {netIdL : List Nat} {st : List (Nat × Nat)} {c : Nat} :
    1 ≤ (netFor netIdL st c).1.length := by
  unfold netFor
  dsimp only
  split
  · next v heq =>
    rcases st with _ | ⟨e, es⟩
    · simp [List.lookup] at heq
    · simp
  · simp

theorem collectEvalFrom_length_mono (netIdL : List Nat) :
    ∀ (bs : List Block) (idx : Nat) (st : List (Nat × Nat)) (acc : StampSet),
      st.length ≤ (collectEvalFrom netIdL bs idx st acc).1.length := by
  intro bs
  induction bs with
  | nil => intro idx st acc; exact le_refl _
  | cons b bs ih =>
    intro idx st acc
    rcases hl : b.left with _ | l <;> rcases hr : b.right with _ | r <;>
      simp only [collectEvalFrom, hl, hr]
    · exact ih _ _ _
    · exact ih _ _ _
    · exact ih _ _ _
    · calc st.length ≤ (netFor netIdL st l).1.length := netFor_length_ge
        _ ≤ (netFor netIdL (netFor netIdL st l).1 r).1.length := netFor_length_ge
        _ ≤ _ := ih _ _ _

/-- Any two-terminal block forces the dense net map to be nonempty. -/
theorem collectEvalFrom_ne_nil (netIdL : List Nat) :
    ∀ (bs : List Block) (idx : Nat) (st : List (Nat × Nat)) (acc : StampSet)
      (b : Block), b ∈ bs → b.left.isSome → b.right.isSome →
      1 ≤ (collectEvalFrom netIdL bs idx st acc).1.length := by
  intro bs
  induction bs with
  | nil => intro idx st acc b hmem; simp at hmem
  | cons hd bs ih =>
    intro idx st acc b hmem hbl hbr
    rcases List.mem_cons.mp hmem with rfl | hmem
    · rcases hl : b.left with _ | l
      · rw [hl] at hbl; simp at hbl
      · rcases hr : b.right with _ | r
        · rw [hr] at hbr; simp at hbr
        · simp only [collectEvalFrom, hl, hr]
          calc 1 ≤ (netFor netIdL (netFor netIdL st l).1 r).1.length :=
                netFor_ne_nil
            _ ≤ _ := collectEvalFrom_length_mono netIdL _ _ _ _
    · rcases hl : hd.left with _ | l <;> rcases hr : hd.right with _ | r <;>
        simp only [collectEvalFrom, hl, hr]
      · exact ih _ _ _ b hmem hbl hbr
      · exact ih _ _ _ b hmem hbl hbr
      · exact ih _ _ _ b hmem hbl hbr
      · exact ih _ _ _ b hmem hbl hbr

theorem resetAndDefault_left (b : Block) : (resetAndDefault b).left = b.left := rfl

theorem resetAndDefault_right (b : Block) : (resetAndDefault b).right = b.right := rfl

/-- C3 (amended): a workspace containing any two-terminal component — wired
or not — never takes the `no-nets` branch: every such component's terminals
are assigned dense net ids, so the net map is nonempty and evaluation
proceeds to the solver.  (`no-nets` arises only when no block has both
terminals, e.g. an empty workspace.) -/
theorem no_nets_needs_no_terminals (expQ : ℚ → ℚ) (ws : Workspace)
    (b : Block) (hmem : b ∈ ws.blocks) (hl : b.left.isSome)
    (hr : b.right.isSome) :
    (evaluateCircuit expQ ws).reason ≠ some "no-nets" := by
  unfold evaluateCircuit
  have hmem' : resetAndDefault b ∈ ws.blocks.map resetAndDefault :=
    List.mem_map_of_mem _ hmem
  have hne : 1 ≤ (collectEvalFrom (netIds ws.nConnectors ws.connections)
      (ws.blocks.map resetAndDefault) 0 [] {}).1.length :=
    collectEvalFrom_ne_nil _ _ _ _ _ (resetAndDefault b) hmem'
      (by rw [resetAndDefault_left]; exact hl)
      (by rw [resetAndDefault_right]; exact hr)
  dsimp only
  rw [if_neg (by omega)]
  split
  · simp
  · simp

/-- The all-disconnected one-resistor workspace of C3. -/
def wsOneResistor : Workspace :=
  { nConnectors := 2
    blocks := [{ type := .resistor, left := some 0, right := some 1,
                 resistance := some 100 }]
    connections := [] }

/-- C3 (counterexample): a workspace with one component and no wires does not
return `no-nets` — each terminal becomes its own net, the (ungrounded,
sourceless) MNA matrix is singular, and the result is `solver-failed`; the
component's annotations stay clear. -/
theorem disconnected_workspace_not_no_nets :
    (evaluateCircuit expAny wsOneResistor).reason = some "solver-failed" ∧
    (evaluateCircuit expAny wsOneResistor).reason ≠ some "no-nets" ∧
    (evaluateCircuit expAny wsOneResistor).anns.all (fun a => a.powered = false) := by
  refine ⟨?_, ?_, ?_⟩ <;> decide

/-- Witness for the amended C3 at the concrete one-resistor workspace. -/
theorem no_nets_needs_no_terminals_witness :
    (evaluateCircuit expAny wsOneResistor).reason ≠ some "no-nets" :=
  no_nets_needs_no_terminals expAny wsOneResistor
    { type := .resistor, left := some 0, right := some 1, resistance := some 100 }
    (by simp [wsOneResistor]) (by simp) (by simp)

/-- The series loop {battery 5 V, resistor 220 Ω, LED Vf 2 V} with the LED's
polarity reversed: the battery's positive (right) terminal is wired to the
LED's left (cathode-side) connector. -/
def wsSeriesLedReversed : Workspace :=
  { nConnectors := 6
    blocks :=
      [{ type := .battery, left := some 0, right := some 1, voltage := some 5 },
       { type := .resistor, left := some 2, right := some 3, resistance := some 220 },
       { type := .led, left := some 4, right := some 5, forwardVoltage := some 2 }]
    connections := [(1, 4), (5, 3), (2, 0)] }

/-- C4: with the LED reversed in the series loop, evaluation leaves the LED
not powered with no recorded current (every consumer reads
`Number(dataset.current)||0 = 0`, far below the 1 µA threshold).  (In this
exact-arithmetic model the ungrounded MNA system is singular, the run ends in
`solver-failed`, and the fallback's BFS breaks on its first arrival at the
battery's negative terminal — via the battery's own component edge — so it
powers nothing; the same holds for the unreversed loop, the LED stamp being
polarity-free.) -/
theorem led_reversed_not_powered :
    ((evaluateCircuit expAny wsSeriesLedReversed).anns.getD 2 {}).powered = false ∧
    ((evaluateCircuit expAny wsSeriesLedReversed).anns.getD 2 {}).current = none ∧
    |((evaluateCircuit expAny wsSeriesLedReversed).anns.getD 2 {}).current.getD 0|
      ≤ 1 / 10 ^ 6 := by
  refine ⟨?_, ?_, ?_⟩ <;> decide

/-! ## C8: switch translation -/

/-- The stamp lists `evaluateCircuit` feeds the MNA solver. -/
def evalStampsOf (ws : Workspace) : StampSet :=
  (collectEvalFrom (netIds ws.nConnectors ws.connections)
    (ws.blocks.map resetAndDefault) 0 [] {}).2

theorem collectModelFrom_resistors_subset (netIdL : List Nat) :
    ∀ (bs : List Block) (idx : Nat) (st : List (Nat × Nat)) (acc : StampSet)
      (s : RStamp), s ∈ acc.resistors →
      s ∈ (collectModelFrom netIdL bs idx st acc).2.resistors := by
  intro bs
  induction bs with
  | nil => intro idx st acc s hs; exact hs
  | cons b bs ih =>
    intro idx st acc s hs
    rcases hl : b.left with _ | l <;> rcases hr : b.right with _ | r <;>
      simp only [collectModelFrom, hl, hr]
    · exact ih _ _ _ _ hs
    · exact ih _ _ _ _ hs
    · exact ih _ _ _ _ hs
    · rcases hty : b.type with _ | _ | _ | _ | _ <;> simp only [hty]
      · exact ih _ _ _ _ (List.mem_append_left _ hs)
      · exact ih _ _ _ _ hs
      · exact ih _ _ _ _ (List.mem_append_left _ hs)
      · exact ih _ _ _ _ (List.mem_append_left _ hs)
      · exact ih _ _ _ _ hs

/-- `buildCircuitModel`'s translation stamps every two-terminal switch block
as a resistor with `1e-6` Ω when on and `1e12` Ω when off. -/
theorem collectModelFrom_switch_stamp (netIdL : List Nat) :
    ∀ (bs : List Block) (idx : Nat) (st : List (Nat × Nat)) (acc : StampSet)
      (j : Nat) (b : Block), bs.get? j = some b → b.type = .switchT →
      b.left.isSome → b.right.isSome →
      ∃ s ∈ (collectModelFrom netIdL bs idx st acc).2.resistors,
        s.blockIdx = some (idx + j) ∧
        s.R = (if ¬b.stateOff then 1 / 10 ^ 6 else 10 ^ 12) := by
  intro bs
  induction bs with
  | nil => intro idx st acc j b hj; simp at hj
  | cons hd bs ih =>
    intro idx st acc j b hj hty hbl hbr
    rcases j with _ | j
    · simp only [List.get?_cons_zero, Option.some_inj] at hj
      rw [show hd = b from hj]
      rcases hl : b.left with _ | l
      · rw [hl] at hbl; simp at hbl
      · rcases hr : b.right with _ | r
        · rw [hr] at hbr; simp at hbr
        · simp only [collectModelFrom, hl, hr, hty]
          refine ⟨_, collectModelFrom_resistors_subset netIdL _ _ _ _ _
            (List.mem_append_right _ (List.mem_singleton_self _)), rfl, rfl⟩
    · simp only [List.get?_cons_succ] at hj
      have hstep : idx + (j + 1) = (idx + 1) + j := by omega
      rw [hstep]
      rcases hl : hd.left with _ | l
      · simp only [collectModelFrom, hl]
        exact ih _ _ _ j b hj hty hbl hbr
      · rcases hr : hd.right with _ | r
        · simp only [collectModelFrom, hl, hr]
          exact ih _ _ _ j b hj hty hbl hbr
        · simp only [collectModelFrom, hl, hr]
          rcases hhty : hd.type with _ | _ | _ | _ | _ <;> simp only [hhty] <;>
            exact ih _ _ _ j b hj hty hbl hbr

/-- Every resistor stamp of `evaluateCircuit`'s translation back-references a
resistor or LED block (never a switch: lines 963-974 have no switch case). -/
theorem collectEvalFrom_resistor_src (netIdL : List Nat) :
    ∀ (bs : List Block) (idx : Nat) (st : List (Nat × Nat)) (acc : StampSet)
      (s : RStamp), s ∈ (collectEvalFrom netIdL bs idx st acc).2.resistors →
      s ∈ acc.resistors ∨ ∃ j b, bs.get? j = some b ∧
        s.blockIdx = some (idx + j) ∧ (b.type = .resistor ∨ b.type = .led) := by
  intro bs
  induction bs with
  | nil => intro idx st acc s hs; exact Or.inl hs
  | cons hd bs ih =>
    intro idx st acc s hs
    have tailcase : ∀ (st2 : List (Nat × Nat)) (acc2 : StampSet),
        s ∈ (collectEvalFrom netIdL bs (idx+1) st2 acc2).2.resistors →
        s ∈ acc2.resistors ∨ ∃ j b, (hd :: bs).get? j = some b ∧
          s.blockIdx = some (idx + j) ∧
          (b.type = .resistor ∨ b.type = .led) := by
      intro st2 acc2 h2
      rcases ih _ _ _ _ h2 with h | ⟨j, b, hj, hbi, hbt⟩
      · exact Or.inl h
      · exact Or.inr ⟨j + 1, b, by simpa using hj,
          by rw [hbi]; congr 1; omega, hbt⟩
    rcases hl : hd.left with _ | l
    · simp only [collectEvalFrom, hl] at hs
      exact tailcase _ _ hs
    · rcases hr : hd.right with _ | r
      · simp only [collectEvalFrom, hl, hr] at hs
        exact tailcase _ _ hs
      · simp only [collectEvalFrom, hl, hr] at hs
        rcases hhty : hd.type with _ | _ | _ | _ | _ <;> rw [hhty] at hs <;>
          dsimp only at hs
        · rcases tailcase _ _ hs with h | h
          · rcases List.mem_append.mp h with h | h
            · exact Or.inl h
            · simp only [List.mem_singleton] at h
              exact Or.inr ⟨0, hd, by simp, by rw [h]; simp, Or.inl hhty⟩
          · exact Or.inr h
        · rcases tailcase _ _ hs with h | h
          · exact Or.inl h
          · exact Or.inr h
        · rcases tailcase _ _ hs with h | h
          · rcases List.mem_append.mp h with h | h
            · exact Or.inl h
            · simp only [List.mem_singleton] at h
              exact Or.inr ⟨0, hd, by simp, by rw [h]; simp, Or.inr hhty⟩
          · exact Or.inr h
        · rcases tailcase _ _ hs with h | h
          · exact Or.inl h
          · exact Or.inr h
        · rcases tailcase _ _ hs with h | h
          · exact Or.inl h
          · exact Or.inr h

theorem resetAndDefault_type (b : Block) : (resetAndDefault b).type = b.type := rfl

/-- C8 (amended): a two-terminal switch is translated as a resistor stamp
(`1e-6` Ω when on, `1e12` Ω when off) only by `buildCircuitModel` — the
fallback-model translation; `evaluateCircuit`'s MNA translation has no switch
case, so none of its resistor stamps references the switch block. -/
theorem switch_stamped_only_in_model (ws : Workspace) (j : Nat) (b : Block)
    (hj : ws.blocks.get? j = some b) (hsw : b.type = .switchT)
    (hl : b.left.isSome) (hr : b.right.isSome) :
    (∃ s ∈ (buildCircuitModel ws).2.resistors,
        s.blockIdx = some j ∧
        s.R = (if ¬b.stateOff then 1 / 10 ^ 6 else 10 ^ 12)) ∧
    ∀ s ∈ (evalStampsOf ws).resistors, s.blockIdx ≠ some j := by
  constructor
  · have h := collectModelFrom_switch_stamp
      (netIds ws.nConnectors ws.connections) ws.blocks 0 [] {} j b hj hsw hl hr
    simpa [buildCircuitModel] using h
  · intro s hs hbi
    rcases collectEvalFrom_resistor_src
        (netIds ws.nConnectors ws.connections)
        (ws.blocks.map resetAndDefault) 0 [] {} s hs with h | ⟨j', b', hj', hbi', hbt⟩
    · simp at h
    · rw [hbi] at hbi'
      have hj'j : j = j' := by
        have := Option.some_inj.mp hbi'
        omega
      rw [List.get?_eq_getElem?, List.getElem?_map, ← hj'j,
        ← List.get?_eq_getElem?, hj] at hj'
      simp only [Option.map_some', Option.some.injEq] at hj'
      rw [← hj', resetAndDefault_type, hsw] at hbt
      rcases hbt with h | h <;> exact BlockType.noConfusion h

/-- A workspace holding one switched-on switch and nothing else. -/
def wsOneSwitch : Workspace :=
  { nConnectors := 2
    blocks := [{ type := .switchT, left := some 0, right := some 1 }]
    connections := [] }

/-- C8 (counterexample): on the MNA path the one-switch workspace is
translated to empty stamp lists — no resistor stamp models the switch — while
the fallback-model translation produces the near-zero-resistance stamp. -/
theorem switch_missing_from_eval_translation :
    (evalStampsOf wsOneSwitch).resistors = [] ∧
    (evalStampsOf wsOneSwitch).vSources = [] ∧
    (evalStampsOf wsOneSwitch).diodes = [] ∧
    (buildCircuitModel wsOneSwitch).2.resistors =
      [{ n1 := some 0, n2 := some 1, R := 1 / 10 ^ 6, blockIdx := some 0 }] := by
  refine ⟨?_, ?_, ?_, ?_⟩ <;> decide

/-- Witness for the amended C8 at the one-switch workspace. -/
theorem switch_stamped_only_in_model_witness :
    (∃ s ∈ (buildCircuitModel wsOneSwitch).2.resistors,
        s.blockIdx = some 0 ∧
        s.R = (if ¬(({ type := .switchT, left := some 0, right := some 1 } :
          Block).stateOff) then 1 / 10 ^ 6 else 10 ^ 12)) ∧
    ∀ s ∈ (evalStampsOf wsOneSwitch).resistors, s.blockIdx ≠ some 0 :=
  switch_stamped_only_in_model wsOneSwitch 0
    { type := .switchT, left := some 0, right := some 1 }
    rfl rfl (by decide) (by decide)

/-! ## C10 and C7: annotation properties -/

/-- C10: at both cited application sites — the MNA resistor-result loop of
`evaluateCircuit` and the first pass of `applyBasicResults` — the stored
current is `|I|` and the stored voltage drop `|Vdrop|`, hence every written
annotation is non-negative and the sign of a branch current is never exposed. -/
theorem annotations_are_absolute (anns : List Ann) (r : ScriptRRes)
    (rr : BasicRes) (bi bj : Nat) (hb : r.block = some bi)
    (hlen : bi < anns.length) (hb2 : rr.meta.blockIdx = some bj)
    (hlen2 : bj < anns.length) :
    (((applyResistorAnn anns r).getD bi {}).current = some |r.I| ∧
     ((applyResistorAnn anns r).getD bi {}).voltageDrop = some |r.Vdrop.getD 0| ∧
     (0 : ℚ) ≤ |r.I| ∧ (0 : ℚ) ≤ |r.Vdrop.getD 0|) ∧
    (((basicResStep anns rr).getD bj {}).current = some |rr.I| ∧
     ((basicResStep anns rr).getD bj {}).voltageDrop = some |rr.Vdrop| ∧
     (0 : ℚ) ≤ |rr.I| ∧ (0 : ℚ) ≤ |rr.Vdrop|) := by
  constructor
  · unfold applyResistorAnn
    rw [hb]
    rw [setAnn_getD_self hlen]
    exact ⟨rfl, rfl, abs_nonneg _, abs_nonneg _⟩
  · unfold basicResStep
    rw [hb2]
    rw [setAnn_getD_self hlen2]
    exact ⟨rfl, rfl, abs_nonneg _, abs_nonneg _⟩

/-- Witness for C10 at a concrete negative-current result entry. -/
theorem annotations_are_absolute_witness :
    ((applyResistorAnn [{}] { block := some 0, I := -2, Vdrop := some (-3) }).getD
      0 {}).current = some 2 := by
  have h := annotations_are_absolute [{}]
    { block := some 0, I := -2, Vdrop := some (-3) }
    { meta := { n1 := none, n2 := none, R := 0, blockIdx := some 0 } } 0 0
    rfl (by decide) rfl (by decide)
  rw [h.1.1]
  decide

/-- A lone LED block (forward voltage 2 V). -/
def ledB : Block :=
  { type := .led, left := some 0, right := some 1, forwardVoltage := some 2 }

/-- C7 (counterexample): a fallback result carrying zero current but a 2 V
drop marks the LED powered even though its current magnitude (0, then
backfilled to exactly 1e-6) never exceeds the 1e-6 A threshold — the
annotator requires only ONE of the two conditions. -/
theorem led_powered_with_zero_current :
    ((applyBasicResults [ledB]
        [{ meta := { n1 := some 0, n2 := some 1, R := 100,
                     blockIdx := some 0, isLed := true },
           I := 0, Vdrop := 2 }]
        [{}]).getD 0 {}).powered = true ∧
    ¬(|(0 : ℚ)| > 1 / 10 ^ 6) ∧
    ((applyBasicResults [ledB]
        [{ meta := { n1 := some 0, n2 := some 1, R := 100,
                     blockIdx := some 0, isLed := true },
           I := 0, Vdrop := 2 }]
        [{}]).getD 0 {}).current = some (1 / 10 ^ 6) ∧
    ¬((1 : ℚ) / 10 ^ 6 > 1 / 10 ^ 6) := by
  refine ⟨?_, ?_, ?_, ?_⟩ <;> decide

/-- C7 (amended): the LED powered decision is an OR, not an AND, on the
fallback/annotator path: `ledPass2` (applyBasicResults' per-LED sweep step)
powers an LED iff `|I| > 1e-6` OR `|Vdrop| >= Vf`, and the sweep applies
exactly that step to every LED block; only the MNA diode-results branch of
`evaluateCircuit` uses the conjunction `Vd >= Vf AND |I| > 1e-6`. -/
theorem led_powered_or_condition (b : Block) (a : Ann) (bs : List Block)
    (anns : List Ann) (bi : Nat) (b2 : Block) (hj : bs.get? bi = some b2)
    (hled : b2.type = .led) (hlen : bi < anns.length) (blocks : List Block)
    (meta : DStamp) (dres : DRes) (anns2 : List Ann) (bj : Nat) (vf : ℚ)
    (hbi : meta.blockIdx = some bj) (hvf : meta.Vf = some vf) (hvf0 : vf ≠ 0)
    (hlen2 : bj < anns2.length) :
    ((ledPass2 b a).powered = true ↔
      (|a.current.getD 0| > 1 / 10 ^ 6 ∨
        |a.voltageDrop.getD 0| ≥ b.forwardVoltage.getD 2)) ∧
    ((ledSweepFrom bs 0 anns).getD bi {} = ledPass2 b2 (anns.getD bi {})) ∧
    (((applyDiodeAnns blocks [meta] [dres] anns2).getD bj {}).powered = true ↔
      (dres.Vd.getD 0 ≥ vf ∧ |dres.I| > 1 / 10 ^ 6)) := by
  refine ⟨?_, ?_, ?_⟩
  · unfold ledPass2
    dsimp only
    split
    · next hcond => simpa using hcond
    · next hcond => simpa using hcond
  · have h := ledSweepFrom_getD bs 0 anns bi (by omega)
    rw [Nat.zero_add] at h
    rw [h, hj]
    dsimp only
    rw [if_pos hled]
  · unfold applyDiodeAnns
    simp only [List.enum, List.enumFrom, List.foldl_cons, List.foldl_nil,
      List.get?_cons_zero]
    rw [hbi, hvf]
    dsimp only
    rw [if_pos hvf0, setAnn_getD_self hlen2]
    dsimp only
    exact decide_eq_true_iff

/-- C7 witness: one LED with zero current but a 3 V recorded drop is powered
by the sweep (the OR fires on the voltage disjunct), while the MNA diode
branch on the same data is the conjunction. -/
theorem led_powered_or_condition_witness :
    ((ledPass2 ledB { voltageDrop := some 3 }).powered = true ↔
      (|({ voltageDrop := some 3 } : Ann).current.getD 0| > 1 / 10 ^ 6 ∨
        |({ voltageDrop := some 3 } : Ann).voltageDrop.getD 0| ≥
          ledB.forwardVoltage.getD 2)) ∧
    ((ledSweepFrom [ledB] 0 [{}]).getD 0 {} =
      ledPass2 ledB (([{}] : List Ann).getD 0 {})) ∧
    (((applyDiodeAnns []
        [{ n1 := some 0, n2 := some 1, Vf := some 2, blockIdx := some 0 }]
        [{ I := 1, Vd := some 3 }] [{}]).getD 0 {}).powered = true ↔
      (({ I := 1, Vd := some 3 } : DRes).Vd.getD 0 ≥ 2 ∧
        |({ I := 1, Vd := some 3 } : DRes).I| > 1 / 10 ^ 6)) :=
  led_powered_or_condition ledB { voltageDrop := some 3 } [ledB] [{}] 0 ledB
    (by decide) (by decide) (by decide) []
    { n1 := some 0, n2 := some 1, Vf := some 2, blockIdx := some 0 }
    { I := 1, Vd := some 3 } [{}] 0 2 rfl rfl (by norm_num) (by decide)

/-! ## SimpleSolver (src/simple-solver.js lines 1-312)

The basic-simulation backend: edge-disjoint BFS paths per voltage source,
series/parallel resistance per path, conductance-proportional assignment of
`I = Vb * (G / GsumAll)` per path, per-path result pushing guarded by
`seenInPath`, and a final per-component deduplication preferring the larger
absolute current. -/

/-- The `type` tag of an adjacency wrapper: `'resistor' | 'led' | 'battery'`. -/
inductive EKind
  | res
  | led
  | batt
deriving DecidableEq, Repr

/-- An entry of `model.resistors` as consumed by SimpleSolver: `{n1, n2, R}`
with the optional `meta.type === 'led'` marker, the optional DOM block
back-reference (its `dataset.id`) and that block's `dataset.forwardVoltage`. -/
structure SSModelR where
  n1 : Option Nat := none
  n2 : Option Nat := none
  R : ℚ := 0
  isLed : Bool := false
  block : Option Nat := none
  Vf : Option ℚ := none
deriving DecidableEq, Repr

/-- An entry of `model.vSources`: `{nPlus, nMinus, V}`. -/
structure SSModelV where
  nPlus : Option Nat := none
  nMinus : Option Nat := none
  V : ℚ := 0
deriving DecidableEq, Repr

/-- The wrapper `{type, idx, meta}` pushed by `addAdj`; one wrapper object is
created per component and shared by both directed adjacency entries, so
wrapper equality models the JS object identity used by the `removed` set. -/
structure EdgeW where
  kind : EKind
  idx : Nat
  payload : SSModelR ⊕ SSModelV
deriving DecidableEq, Repr

/-- Reading `m.meta` as a resistor record (battery wrappers have none of the
resistor fields; JS reads of absent fields give `undefined`, i.e. defaults). -/
def ssRmeta (w : EdgeW) : SSModelR :=
  match w.payload with
  | .inl r => r
  | .inr _ => {}

/-- `Number(m.meta && m.meta.R || 0)`. -/
def ssRval (w : EdgeW) : ℚ :=
  match w.payload with
  | .inl r => r.R
  | .inr _ => 0

/-- `Number((meta.block && meta.block.dataset.forwardVoltage) || 2)`. -/
def ledVfOf (r : SSModelR) : ℚ :=
  match r.block with
  | some _ => r.Vf.getD 2
  | none => 2

/-- JS `Number(x.toFixed(6))`: round to six decimal places (ties toward the
larger value, per the `toFixed` specification). -/
def toFixed6 (x : ℚ) : ℚ := (round (x * 10 ^ 6) : ℚ) / 10 ^ 6

/-- The dedup key: `meta.block ? meta.block.dataset.id : `${meta.n1}_${meta.n2}``. -/
abbrev SSKey := Nat ⊕ (Option Nat × Option Nat)

def ssKeyR (r : SSModelR) : SSKey :=
  match r.block with
  | some b => Sum.inl b
  | none => Sum.inr (r.n1, r.n2)

/-- Net adjacency `Map net -> [{to, meta}]`, insertion ordered. -/
abbrev SSAdj := List (Nat × List (Nat × EdgeW))

def ssAdjGet (adj : SSAdj) (a : Nat) : List (Nat × EdgeW) :=
  match adj.find? (fun kv => decide (kv.1 = a)) with
  | some kv => kv.2
  | none => []

def ssAdjPush (adj : SSAdj) (a : Nat) (e : Nat × EdgeW) : SSAdj :=
  if (adj.find? (fun kv => decide (kv.1 = a))).isSome then
    adj.map (fun kv => if kv.1 = a then (kv.1, kv.2 ++ [e]) else kv)
  else adj ++ [(a, [e])]

/-- `addAdj(a, b, meta)`: skip null endpoints, push both directions. -/
def ssAddAdj (adj : SSAdj) (a b : Option Nat) (w : EdgeW) : SSAdj :=
  match a, b with
  | some x, some y => ssAdjPush (ssAdjPush adj x (y, w)) y (x, w)
  | _, _ => adj

/-- Adjacency built from `resistors` (tagged led/resistor) then `vSources`. -/
def ssBuildAdj (resistors : List SSModelR) (vSources : List SSModelV) : SSAdj :=
  let a1 := resistors.enum.foldl
    (fun adj (p : Nat × SSModelR) =>
      ssAddAdj adj p.2.n1 p.2.n2
        { kind := if p.2.isLed then .led else .res, idx := p.1,
          payload := .inl p.2 }) []
  vSources.enum.foldl
    (fun adj (p : Nat × SSModelV) =>
      ssAddAdj adj p.2.nPlus p.2.nMinus
        { kind := .batt, idx := p.1, payload := .inr p.2 }) a1

/-- BFS scan state: `found`, the `seen` set, the `prev` map
(`to -> {prev, via}`) and the queue. -/
structure ScanSt where
  found : Bool
  seen : List Nat
  prev : List (Nat × Nat × EdgeW)
  q : List Nat
deriving Repr

/-- The neighbor loop of one BFS step: skip removed edges and seen nets,
record `prev`, stop as soon as the target is reached (remaining neighbors
are not examined). -/
def ssScan (e cur : Nat) (removed : List EdgeW) :
    List (Nat × EdgeW) → ScanSt → ScanSt
  | [], st => st
  | (t, via) :: rest, st =>
    if via ∈ removed then ssScan e cur removed rest st
    else if t ∈ st.seen then ssScan e cur removed rest st
    else
      let st' : ScanSt :=
        { st with seen := st.seen ++ [t], prev := st.prev ++ [(t, cur, via)] }
      if t = e then { st' with found := true }
      else ssScan e cur removed rest { st' with q := st'.q ++ [t] }

/-- `while (q.length && !found)`, fueled by the net count. -/
def ssBFSGo (adj : SSAdj) (e : Nat) (removed : List EdgeW) :
    Nat → List Nat → List Nat → List (Nat × Nat × EdgeW) →
      Bool × List (Nat × Nat × EdgeW)
  | 0, _, _, prev => (false, prev)
  | fuel+1, q, seen, prev =>
    match q with
    | [] => (false, prev)
    | cur :: rest =>
      let st := ssScan e cur removed (ssAdjGet adj cur)
        { found := false, seen := seen, prev := prev, q := rest }
      if st.found then (true, st.prev)
      else ssBFSGo adj e removed fuel st.q st.seen st.prev

def ssPrevGet (prev : List (Nat × Nat × EdgeW)) (node : Nat) :
    Option (Nat × EdgeW) :=
  match prev.find? (fun p => decide (p.1 = node)) with
  | some p => some p.2
  | none => none

/-- Path reconstruction from the `prev` map (back from `e` until `s`). -/
def ssReconGo (prev : List (Nat × Nat × EdgeW)) (s : Nat) :
    Nat → Nat → List Nat × List EdgeW
  | 0, _ => ([], [])
  | fuel+1, node =>
    if node = s then ([], [])
    else
      match ssPrevGet prev node with
      | none => ([], [])
      | some pv =>
        let r := ssReconGo prev s fuel pv.1
        (r.1 ++ [node], r.2 ++ [pv.2])

structure SSPath where
  nets : List Nat
  edges : List EdgeW
deriving DecidableEq, Repr

/-- `findEdgeDisjointPaths(start, end, adjMap, maxPaths)`: repeated BFS,
removing the used edges after each found path. -/
def findEdgeDisjointPaths (adj : SSAdj) (s e : Nat) :
    Nat → List EdgeW → List SSPath → List SSPath
  | 0, _, acc => acc
  | n+1, removed, acc =>
    let bfs := ssBFSGo adj e removed (adj.length + 1) [s] [s] []
    if bfs.1 then
      let r := ssReconGo bfs.2 s (bfs.2.length + 1) e
      findEdgeDisjointPaths adj s e n (removed ++ r.2)
        (acc ++ [{ nets := s :: r.1, edges := r.2 }])
    else acc

/-- Segment matches between consecutive path nets: all adjacency entries from
`a` to `b`, with open components (`R > OPEN_R_THRESHOLD = 1e9`) filtered out;
`none` models the null pushed when no valid match remains. -/
def ssSegMatches (adj : SSAdj) (a b : Nat) : Option (List EdgeW) :=
  let ms := ((ssAdjGet adj a).filter (fun nb => decide (nb.1 = b))).map
    (fun nb => nb.2)
  let valid := ms.filter (fun m => !decide (ssRval m > 10 ^ 9))
  if valid.isEmpty then none else some valid

/-- The `Rsum`/`compCount` accumulation over one segment: a lone component
contributes its R (10 for an LED); parallel components contribute the
equivalent R of the regular resistors (`R || 1e-12` each). -/
def ssSegRC (acc : ℚ × Nat) (seg : Option (List EdgeW)) : ℚ × Nat :=
  match seg with
  | none => acc
  | some ms =>
    let comp := ms.filter
      (fun m => decide (m.kind = .res) || decide (m.kind = .led))
    match comp with
    | [] => acc
    | [c] =>
      (acc.1 + (if c.kind = .led then 10 else (ssRmeta c).R), acc.2 + 1)
    | cs =>
      let regs := cs.filter (fun m => decide (m.kind = .res))
      let Gsum := regs.foldl
        (fun g m => g + 1 / jsOr (ssRmeta m).R (1 / 10 ^ 12)) 0
      let Req := if Gsum > 0 then 1 / Gsum else 0
      (acc.1 + Req, acc.2 + cs.length)

structure SSPathInfo where
  edgeList : List (Option (List EdgeW))
  Rsum : ℚ
  Vb : ℚ
deriving Repr

/-- Build one path's info: skip degenerate paths, paths containing an open
segment, and paths with no resistive component; clamp `Rsum <= 0` to `1e-6`. -/
def ssPathInfo (adj : SSAdj) (Vb : ℚ) (p : SSPath) : Option SSPathInfo :=
  if p.nets.length < 2 then none
  else
    let edgeList := (p.nets.zip p.nets.tail).map
      (fun ab => ssSegMatches adj ab.1 ab.2)
    if edgeList.any (fun seg => seg.isNone) then none
    else
      let rc := edgeList.foldl ssSegRC (0, 0)
      if rc.2 = 0 then none
      else some { edgeList := edgeList,
                  Rsum := if rc.1 ≤ 0 then 1 / 10 ^ 6 else rc.1, Vb := Vb }

/-- The per-path current `I = Vb * (pi.G / GsumAll)` with `G = 1/Rsum`. -/
def ssPathI (Vb Rsum GsumAll : ℚ) : ℚ := Vb * ((1 / Rsum) / GsumAll)

/-- A pushed `resistorResults` entry `{meta, idx, I, Vdrop}`. -/
structure SSRRes where
  meta : SSModelR
  idx : Nat
  I : ℚ
  Vdrop : ℚ
deriving DecidableEq, Repr

/-- JS `seenInPath.has(key)` on dedup keys. -/
def ssKeyMem (k : SSKey) : List SSKey → Bool
  | [] => false
  | a :: t => decide (k = a) || ssKeyMem k t

/-- Result pushing over one segment, threading the per-path `seenInPath` key
set: a lone component gets the full path current (LED drop = Vf, resistor
drop = I*R, rounded and zeroed under 1e-6); parallel regular resistors split
by conductance share, parallel LEDs split the current evenly. -/
def ssPushSeg (I : ℚ) (st : List SSKey × List SSRRes)
    (seg : Option (List EdgeW)) : List SSKey × List SSRRes :=
  match seg with
  | none => st
  | some ms =>
    let comp := ms.filter
      (fun m => decide (m.kind = .res) || decide (m.kind = .led))
    match comp with
    | [] => st
    | [c] =>
      let key : SSKey := ssKeyR (ssRmeta c)
      if ssKeyMem key st.1 then st
      else
        let Vdrop := if c.kind = .led then ledVfOf (ssRmeta c)
          else I * (ssRmeta c).R
        let Vdval0 := toFixed6 Vdrop
        let Vdval := if |Vdval0| < 1 / 10 ^ 6 then 0 else Vdval0
        (st.1 ++ [key],
         st.2 ++ [{ meta := ssRmeta c, idx := c.idx, I := I, Vdrop := Vdval }])
    | cs =>
      let regs := cs.filter (fun m => decide (m.kind = .res))
      let leds := cs.filter (fun m => decide (m.kind = .led))
      let Gsum := regs.foldl
        (fun g m => g + 1 / jsOr (ssRmeta m).R (1 / 10 ^ 12)) 0
      let Req := if Gsum > 0 then 1 / Gsum else 0
      let baseVdrop := I * Req
      let st1 := regs.foldl
        (fun (st : List SSKey × List SSRRes) m =>
          let key : SSKey := ssKeyR (ssRmeta m)
          if ssKeyMem key st.1 then st
          else
            let Rv := jsOr (ssRmeta m).R (1 / 10 ^ 12)
            (st.1 ++ [key],
             st.2 ++ [{ meta := ssRmeta m, idx := m.idx,
                        I := I * (1 / Rv) / Gsum,
                        Vdrop := toFixed6 baseVdrop }])) st
      leds.foldl
        (fun (st : List SSKey × List SSRRes) m =>
          let key : SSKey := ssKeyR (ssRmeta m)
          if ssKeyMem key st.1 then st
          else
            (st.1 ++ [key],
             st.2 ++ [{ meta := ssRmeta m, idx := m.idx,
                        I := I / (leds.length : ℚ),
                        Vdrop := toFixed6 (ledVfOf (ssRmeta m)) }])) st1

/-- One voltage source's contribution: find up to 6 edge-disjoint paths,
build path infos, compute the conductance-proportional per-path current and
push the per-segment results. -/
def ssPerSource (adj : SSAdj) (acc : List SSRRes) (vs : SSModelV) :
    List SSRRes :=
  match vs.nPlus, vs.nMinus with
  | some np, some nm =>
    let paths := findEdgeDisjointPaths adj np nm 6 [] []
    if paths.isEmpty then acc
    else
      let pathInfos := paths.filterMap (ssPathInfo adj vs.V)
      if pathInfos.isEmpty then acc
      else
        let GsumAll0 := pathInfos.foldl (fun g pi => g + 1 / pi.Rsum) (0 : ℚ)
        let GsumAll := if GsumAll0 ≤ 0 then 1 / 10 ^ 12 else GsumAll0
        pathInfos.foldl
          (fun a pi =>
            a ++ (pi.edgeList.foldl
              (ssPushSeg (ssPathI pi.Vb pi.Rsum GsumAll)) ([], [])).2) acc
  | _, _ => acc

/-- First-match association lookup (JS `Map.get`). -/
def ssLookup (key : SSKey) : List (SSKey × SSRRes) → Option SSRRes
  | [] => none
  | kv :: t => if kv.1 = key then some kv.2 else ssLookup key t

/-- In-place update of an existing binding (JS `Map.set` on a present key
keeps the insertion position). -/
def ssSetAssoc (key : SSKey) (v : SSRRes) :
    List (SSKey × SSRRes) → List (SSKey × SSRRes)
  | [] => []
  | kv :: t => if kv.1 = key then (key, v) :: t else kv :: ssSetAssoc key v t

/-- One step of the dedup fold (lines 269-280): first entry per key wins
unless a later entry has strictly larger `|I|`. -/
def ssDedupStep (m : List (SSKey × SSRRes)) (r : SSRRes) :
    List (SSKey × SSRRes) :=
  let key := ssKeyR r.meta
  match ssLookup key m with
  | none => m ++ [(key, r)]
  | some ex => if |r.I| > |ex.I| then ssSetAssoc key r m else m

def ssDedup (rs : List SSRRes) : List (SSKey × SSRRes) :=
  rs.foldl ssDedupStep []

structure SSOut where
  success : Bool
  resistorResults : List SSRRes
  diodeResults : List SSRRes
deriving Repr

/-- `SimpleSolver.simulate(model)`: chunk-1 never pushes `diodeResults`
(LEDs travel in `resistorResults`), so that list is always empty. -/
def simulate (resistors : List SSModelR) (vSources : List SSModelV) : SSOut :=
  let adj := ssBuildAdj resistors vSources
  let rrs := vSources.foldl (ssPerSource adj) []
  { success := true
    resistorResults := (ssDedup rrs).map (fun kv => kv.2)
    diodeResults := [] }

/-! ## C6: the parallel-path current split -/

/-- One of two equal parallel 100 ohm resistors (distinct block ids). -/
def ssParR (bid : Nat) : SSModelR :=
  { n1 := some 0, n2 := some 1, R := 100, block := some bid }

/-- Two 100 ohm resistors between the same two nets. -/
def ssParModelR : List SSModelR := [ssParR 10, ssParR 11]

/-- A 5 V source across those nets. -/
def ssParModelV : List SSModelV := [{ nPlus := some 0, nMinus := some 1, V := 5 }]

/-- C6 (counterexample): for two equal 100 ohm resistors in parallel across a
5 V source, the fallback solver annotates each resistor with 5/6 A, not the
current-divider value 0.05 A (the battery voltage, not the source current, is
multiplied by each path's conductance share, and the battery's own edge is
itself taken as a third "path"). -/
theorem parallel_split_not_a_twentieth :
    (simulate ssParModelR ssParModelV).resistorResults.map (fun r => r.I) =
      [5 / 6, 5 / 6] ∧ ¬((5 : ℚ) / 6 = 1 / 20) := by
  constructor <;> decide

/-- C6 (amended): each path is assigned `I = Vb * (G / GsumAll)` — the source
voltage scaled by the path's conductance share.  This is not a split of the
total source current `Vb * GsumAll`: whenever the total path conductance is
not exactly 1 (and the path conducts at all), the assigned value differs from
the exact current-divider share `(Vb * GsumAll) * (G / GsumAll)`. -/
theorem fallback_splits_voltage_by_conductance (Vb Rsum GsumAll : ℚ)
    (hR : 1 / Rsum ≠ 0) (hV : Vb ≠ 0) (h0 : GsumAll ≠ 0) (h1 : GsumAll ≠ 1) :
    ssPathI Vb Rsum GsumAll = Vb * ((1 / Rsum) / GsumAll) ∧
    ssPathI Vb Rsum GsumAll ≠ Vb * GsumAll * ((1 / Rsum) / GsumAll) := by
  refine ⟨rfl, ?_⟩
  intro heq
  unfold ssPathI at heq
  have hX : (1 / Rsum) / GsumAll ≠ 0 := div_ne_zero hR h0
  have h2 : Vb = Vb * GsumAll := mul_right_cancel₀ hX heq
  have h3 : (1 : ℚ) = GsumAll := mul_left_cancel₀ hV (by rw [mul_one]; exact h2)
  exact h1 h3.symm


/-- C6 witness: the two-parallel-100-ohm configuration (three path infos of
Rsum 50, GsumAll 3/50) instantiates the amended split formula. -/
theorem fallback_splits_voltage_by_conductance_witness :
    ssPathI 5 50 (3 / 50) = 5 * ((1 / 50) / (3 / 50)) ∧
    ssPathI 5 50 (3 / 50) ≠ 5 * (3 / 50) * ((1 / 50) / (3 / 50)) :=
  fallback_splits_voltage_by_conductance 5 50 (3 / 50) (by norm_num)
    (by norm_num) (by norm_num) (by norm_num)

/-! ## C9: the deduplication fold -/

theorem ssLookup_eq_none {k : SSKey} :
    ∀ {m : List (SSKey × SSRRes)}, ssLookup k m = none → ∀ kv ∈ m, kv.1 ≠ k
  | [], _, kv, hkv => absurd hkv (List.not_mem_nil kv)
  | a :: t, h, kv, hkv => by
    unfold ssLookup at h
    by_cases ha : a.1 = k
    · rw [if_pos ha] at h; exact absurd h (by simp)
    · rw [if_neg ha] at h
      rcases List.mem_cons.mp hkv with h1 | h1
      · rw [h1]; exact ha
      · exact ssLookup_eq_none h kv h1

theorem ssLookup_mem {k : SSKey} {v : SSRRes} :
    ∀ {m : List (SSKey × SSRRes)}, ssLookup k m = some v → (k, v) ∈ m
  | [], h => by exact absurd h (by simp [ssLookup])
  | a :: t, h => by
    unfold ssLookup at h
    by_cases ha : a.1 = k
    · rw [if_pos ha] at h
      have : v = a.2 := (Option.some_inj.mp h).symm
      rw [this, ← ha]
      exact List.mem_cons_self _ _
    · rw [if_neg ha] at h
      exact List.mem_cons_of_mem _ (ssLookup_mem h)

theorem ssLookup_of_mem_nodup :
    ∀ {m : List (SSKey × SSRRes)}, (m.map Prod.fst).Nodup →
      ∀ kv ∈ m, ssLookup kv.1 m = some kv.2
  | [], _, kv, hkv => absurd hkv (List.not_mem_nil kv)
  | a :: t, hnd, kv, hkv => by
    rw [List.map_cons, List.nodup_cons] at hnd
    rcases List.mem_cons.mp hkv with h1 | h1
    · rw [h1]
      unfold ssLookup
      rw [if_pos rfl]
    · unfold ssLookup
      have hne : a.1 ≠ kv.1 := by
        intro he
        exact hnd.1 (he ▸ List.mem_map_of_mem Prod.fst h1)
      rw [if_neg hne]
      exact ssLookup_of_mem_nodup hnd.2 kv h1

theorem ssSetAssoc_map_fst (k : SSKey) (v : SSRRes) :
    ∀ m : List (SSKey × SSRRes),
      (ssSetAssoc k v m).map Prod.fst = m.map Prod.fst
  | [] => rfl
  | a :: t => by
    unfold ssSetAssoc
    by_cases ha : a.1 = k
    · rw [if_pos ha, List.map_cons, List.map_cons, ha]
    · rw [if_neg ha, List.map_cons, List.map_cons, ssSetAssoc_map_fst k v t]

theorem mem_ssSetAssoc_nodup {k : SSKey} {v : SSRRes} :
    ∀ {m : List (SSKey × SSRRes)}, (m.map Prod.fst).Nodup →
      ∀ kv ∈ ssSetAssoc k v m, (kv ∈ m ∧ kv.1 ≠ k) ∨ kv = (k, v)
  | [], _, kv, hkv => absurd hkv (List.not_mem_nil kv)
  | a :: t, hnd, kv, hkv => by
    rw [List.map_cons, List.nodup_cons] at hnd
    unfold ssSetAssoc at hkv
    by_cases ha : a.1 = k
    · rw [if_pos ha] at hkv
      rcases List.mem_cons.mp hkv with h1 | h1
      · exact Or.inr h1
      · refine Or.inl ⟨List.mem_cons_of_mem _ h1, ?_⟩
        intro he
        exact hnd.1 (ha ▸ he ▸ List.mem_map_of_mem Prod.fst h1)
    · rw [if_neg ha] at hkv
      rcases List.mem_cons.mp hkv with h1 | h1
      · exact Or.inl ⟨h1 ▸ List.mem_cons_self _ _, h1 ▸ ha⟩
      · rcases mem_ssSetAssoc_nodup hnd.2 kv h1 with ⟨h2, h3⟩ | h2
        · exact Or.inl ⟨List.mem_cons_of_mem _ h2, h3⟩
        · exact Or.inr h2

theorem mem_ssSetAssoc_self {k : SSKey} {v ex : SSRRes} :
    ∀ {m : List (SSKey × SSRRes)}, ssLookup k m = some ex →
      (k, v) ∈ ssSetAssoc k v m
  | [], h => by exact absurd h (by simp [ssLookup])
  | a :: t, h => by
    unfold ssLookup at h
    unfold ssSetAssoc
    by_cases ha : a.1 = k
    · rw [if_pos ha]
      exact List.mem_cons_self _ _
    · rw [if_neg ha] at h ⊢
      exact List.mem_cons_of_mem _ (mem_ssSetAssoc_self h)

/-- One dedup step preserves the invariant: unique keys, every kept entry is
a processed input entry carrying its own key, with maximal `|I|` among the
processed entries of that key, and every processed key is represented. -/
theorem ssDedupStep_inv (m : List (SSKey × SSRRes)) (done : List SSRRes)
    (r : SSRRes) (h1 : (m.map Prod.fst).Nodup)
    (h2 : ∀ kv ∈ m, kv.2 ∈ done ∧ ssKeyR kv.2.meta = kv.1 ∧
      ∀ r' ∈ done, ssKeyR r'.meta = kv.1 → |r'.I| ≤ |kv.2.I|)
    (h3 : ∀ r' ∈ done, ∃ kv ∈ m, kv.1 = ssKeyR r'.meta) :
    ((ssDedupStep m r).map Prod.fst).Nodup ∧
    (∀ kv ∈ ssDedupStep m r, kv.2 ∈ done ++ [r] ∧ ssKeyR kv.2.meta = kv.1 ∧
      ∀ r' ∈ done ++ [r], ssKeyR r'.meta = kv.1 → |r'.I| ≤ |kv.2.I|) ∧
    (∀ r' ∈ done ++ [r], ∃ kv ∈ ssDedupStep m r, kv.1 = ssKeyR r'.meta) := by
  unfold ssDedupStep
  dsimp only
  cases hL : ssLookup (ssKeyR r.meta) m with
  | none =>
    dsimp only
    refine ⟨?_, ?_, ?_⟩
    · rw [List.map_append]
      refine List.Nodup.append h1 (List.nodup_singleton _) ?_
      intro x hx hx2
      have hxk : x = ssKeyR r.meta := by simpa using hx2
      obtain ⟨kv, hkv, hfst⟩ := List.mem_map.mp hx
      exact ssLookup_eq_none hL kv hkv (by rw [hfst, hxk])
    · intro kv hkv
      rcases List.mem_append.mp hkv with hm | hone
      · obtain ⟨hd, hk, hmax⟩ := h2 kv hm
        refine ⟨List.mem_append_left _ hd, hk, ?_⟩
        intro r' hr' hkey
        rcases List.mem_append.mp hr' with hr1 | hr1
        · exact hmax r' hr1 hkey
        · have : r' = r := by simpa using hr1
          rw [this] at hkey
          exact absurd hkey.symm (ssLookup_eq_none hL kv hm)
      · have hkvr : kv = (ssKeyR r.meta, r) := by simpa using hone
        rw [hkvr]
        refine ⟨List.mem_append_right _ (List.mem_singleton_self _), rfl, ?_⟩
        intro r' hr' hkey
        rcases List.mem_append.mp hr' with hr1 | hr1
        · obtain ⟨kv', hkv', hfst'⟩ := h3 r' hr1
          exact absurd (hfst'.trans hkey) (ssLookup_eq_none hL kv' hkv')
        · have : r' = r := by simpa using hr1
          rw [this]
    · intro r' hr'
      rcases List.mem_append.mp hr' with hr1 | hr1
      · obtain ⟨kv, hkv, hfst⟩ := h3 r' hr1
        exact ⟨kv, List.mem_append_left _ hkv, hfst⟩
      · have : r' = r := by simpa using hr1
        rw [this]
        exact ⟨(ssKeyR r.meta, r),
          List.mem_append_right _ (List.mem_singleton_self _), rfl⟩
  | some ex =>
    dsimp only
    by_cases hgt : |r.I| > |ex.I|
    · rw [if_pos hgt]
      refine ⟨?_, ?_, ?_⟩
      · rw [ssSetAssoc_map_fst]; exact h1
      · intro kv hkv
        rcases mem_ssSetAssoc_nodup h1 kv hkv with ⟨hm, hne⟩ | heq
        · obtain ⟨hd, hk, hmax⟩ := h2 kv hm
          refine ⟨List.mem_append_left _ hd, hk, ?_⟩
          intro r' hr' hkey
          rcases List.mem_append.mp hr' with hr1 | hr1
          · exact hmax r' hr1 hkey
          · have : r' = r := by simpa using hr1
            rw [this] at hkey
            exact absurd hkey.symm hne
        · rw [heq]
          refine ⟨List.mem_append_right _ (List.mem_singleton_self _), rfl, ?_⟩
          intro r' hr' hkey
          rcases List.mem_append.mp hr' with hr1 | hr1
          · obtain ⟨_, _, hmax⟩ := h2 (ssKeyR r.meta, ex) (ssLookup_mem hL)
            exact (hmax r' hr1 hkey).trans (le_of_lt hgt)
          · have : r' = r := by simpa using hr1
            rw [this]
      · intro r' hr'
        rcases List.mem_append.mp hr' with hr1 | hr1
        · obtain ⟨kv, hkv, hfst⟩ := h3 r' hr1
          have hx : kv.1 ∈ (ssSetAssoc (ssKeyR r.meta) r m).map Prod.fst := by
            rw [ssSetAssoc_map_fst]
            exact List.mem_map_of_mem Prod.fst hkv
          obtain ⟨kv', hkv', hfst'⟩ := List.mem_map.mp hx
          exact ⟨kv', hkv', by rw [hfst', hfst]⟩
        · have : r' = r := by simpa using hr1
          rw [this]
          exact ⟨(ssKeyR r.meta, r), mem_ssSetAssoc_self hL, rfl⟩
    · rw [if_neg hgt]
      refine ⟨h1, ?_, ?_⟩
      · intro kv hkv
        obtain ⟨hd, hk, hmax⟩ := h2 kv hkv
        refine ⟨List.mem_append_left _ hd, hk, ?_⟩
        intro r' hr' hkey
        rcases List.mem_append.mp hr' with hr1 | hr1
        · exact hmax r' hr1 hkey
        · have hrr : r' = r := by simpa using hr1
          rw [hrr]
          have hlkv := ssLookup_of_mem_nodup h1 kv hkv
          rw [← hkey, hrr] at hlkv
          rw [hL] at hlkv
          have hex : ex = kv.2 := Option.some_inj.mp hlkv
          rw [← hex]
          exact le_of_not_lt hgt
      · intro r' hr'
        rcases List.mem_append.mp hr' with hr1 | hr1
        · exact h3 r' hr1
        · have : r' = r := by simpa using hr1
          rw [this]
          exact ⟨(ssKeyR r.meta, ex), ssLookup_mem hL, rfl⟩

/-- The dedup fold invariant, threaded along the whole input list. -/
theorem ssDedup_fold_inv :
    ∀ (rs : List SSRRes) (m : List (SSKey × SSRRes)) (done : List SSRRes),
      (m.map Prod.fst).Nodup →
      (∀ kv ∈ m, kv.2 ∈ done ∧ ssKeyR kv.2.meta = kv.1 ∧
        ∀ r' ∈ done, ssKeyR r'.meta = kv.1 → |r'.I| ≤ |kv.2.I|) →
      (∀ r' ∈ done, ∃ kv ∈ m, kv.1 = ssKeyR r'.meta) →
      ((rs.foldl ssDedupStep m).map Prod.fst).Nodup ∧
      (∀ kv ∈ rs.foldl ssDedupStep m, kv.2 ∈ done ++ rs ∧
        ssKeyR kv.2.meta = kv.1 ∧
        ∀ r' ∈ done ++ rs, ssKeyR r'.meta = kv.1 → |r'.I| ≤ |kv.2.I|) ∧
      (∀ r' ∈ done ++ rs, ∃ kv ∈ rs.foldl ssDedupStep m, kv.1 = ssKeyR r'.meta)
  | [], m, done, h1, h2, h3 => by
    simp only [List.foldl_nil, List.append_nil]
    exact ⟨h1, h2, h3⟩
  | r :: t, m, done, h1, h2, h3 => by
    rw [List.foldl_cons]
    have hstep := ssDedupStep_inv m done r h1 h2 h3
    have ih := ssDedup_fold_inv t (ssDedupStep m r) (done ++ [r])
      hstep.1 hstep.2.1 hstep.2.2
    rw [show done ++ r :: t = (done ++ [r]) ++ t by simp]
    exact ih

/-- C9: the dedup step of the fallback solver keeps at most one entry per
component key; every kept entry is one of the pushed results, is stored under
its own key, and carries the largest absolute current among all pushed
results that share its key; `simulate` emits exactly the deduplicated list. -/
theorem fallback_dedup_prefers_larger_current (resistors : List SSModelR)
    (vSources : List SSModelV) (rs : List SSRRes) :
    (simulate resistors vSources).resistorResults =
      (ssDedup (vSources.foldl
        (ssPerSource (ssBuildAdj resistors vSources)) [])).map
        (fun kv => kv.2) ∧
    ((ssDedup rs).map Prod.fst).Nodup ∧
    ∀ kv ∈ ssDedup rs, kv.2 ∈ rs ∧ ssKeyR kv.2.meta = kv.1 ∧
      ∀ r' ∈ rs, ssKeyR r'.meta = kv.1 → |r'.I| ≤ |kv.2.I| := by
  refine ⟨rfl, ?_, ?_⟩
  · exact (ssDedup_fold_inv rs [] [] (List.nodup_nil)
      (fun kv hkv => absurd hkv (List.not_mem_nil kv))
      (fun r' hr' => absurd hr' (List.not_mem_nil r'))).1
  · have h := (ssDedup_fold_inv rs [] [] (List.nodup_nil)
      (fun kv hkv => absurd hkv (List.not_mem_nil kv))
      (fun r' hr' => absurd hr' (List.not_mem_nil r'))).2.1
    rw [List.nil_append] at h
    exact h

/-- Two fallback results touching the same component (no block id, same net
pair) with currents 1 and -3. -/
def ssW1 : SSRRes :=
  { meta := { n1 := some 0, n2 := some 1 }, idx := 0, I := 1, Vdrop := 0 }

def ssW2 : SSRRes :=
  { meta := { n1 := some 0, n2 := some 1 }, idx := 1, I := -3, Vdrop := 0 }

/-- C9 witness: of two same-key results the dedup keeps the one with the
larger absolute current (here the later, negative-signed -3 A entry). -/
theorem fallback_dedup_prefers_larger_current_witness :
    ssDedup [ssW1, ssW2] = [(Sum.inr (some 0, some 1), ssW2)] ∧
    ssW2 ∈ [ssW1, ssW2] ∧ |ssW1.I| ≤ |ssW2.I| := by
  have he : ssDedup [ssW1, ssW2] = [(Sum.inr (some 0, some 1), ssW2)] := by
    decide
  have hmem : ((Sum.inr (some 0, some 1) : SSKey), ssW2) ∈ ssDedup [ssW1, ssW2] := by
    rw [he]
    exact List.mem_singleton_self _
  have h := (fallback_dedup_prefers_larger_current [] [] [ssW1, ssW2]).2.2
    (Sum.inr (some 0, some 1), ssW2) hmem
  exact ⟨he, h.1, h.2.2 ssW1 (by decide) (by decide)⟩

/-! ## C5: singular-pivot handling -/

/-- If the very first assembled system's solve fails, the Newton loop aborts
with the caught error on its first iteration. -/
theorem mnaLoop_error_of_first_solve (expQ : ℚ → ℚ) (N : Nat)
    (rs : List RStamp) (vss : List VStamp) (ds : List DStamp)
    (tol damping : ℚ) (k : Nat) (V : Vec) (o : Option Vec)
    (hsl : solveLinear (buildSystem expQ N rs vss ds V).1
      (buildSystem expQ N rs vss ds V).2 = .error ()) :
    mnaLoop expQ N rs vss ds tol damping (k + 1) V o = .error () := by
  unfold mnaLoop
  dsimp only
  rw [hsl]

/-- A first-iteration linear-solve failure makes `solveMNA` report
`success: false` with reason `linear-solve-failed` for any options. -/
theorem solveMNA_fail_of_first_solve (expQ : ℚ → ℚ) (N : Nat)
    (rs : List RStamp) (vss : List VStamp) (ds : List DStamp) (opts : MNAOpts)
    (hsl : solveLinear (buildSystem expQ N rs vss ds (List.replicate N 0)).1
      (buildSystem expQ N rs vss ds (List.replicate N 0)).2 = .error ()) :
    solveMNA expQ N rs vss ds opts =
      { success := false, reason := some "linear-solve-failed" } := by
  unfold solveMNA
  obtain ⟨k, hk⟩ : ∃ k, optMaxIter opts = k + 1 :=
    ⟨optMaxIter opts - 1, by have := optMaxIter_pos opts; omega⟩
  rw [hk, mnaLoop_error_of_first_solve expQ N rs vss ds _ _ k _ none hsl]

/-- C5: a best available pivot below the 1e-18 threshold at an elimination
column makes the column loop return the caught singular-matrix error (the
embedding is total, so no fault escapes); `solveLinear` propagates it;
`solveMNA` then reports a non-success result with reason
`linear-solve-failed`; and `evaluateCircuit` responds to that failure by
returning reason `solver-failed` with the fallback run. -/
theorem small_pivot_singular_failure_and_fallback
    (dim i : Nat) (rest : List Nat) (A : Mat) (z : Vec)
    (hp : (pivotScan A i dim).2 < pivotEps)
    (Ain : Mat) (zin : Vec) (hA : Ain.length ≠ 0)
    (he : elimColumns Ain.length (List.range Ain.length) (Ain, zin) =
      .error ())
    (expQ : ℚ → ℚ) (N : Nat) (rs : List RStamp) (vss : List VStamp)
    (ds : List DStamp) (opts : MNAOpts)
    (hsl : solveLinear (buildSystem expQ N rs vss ds (List.replicate N 0)).1
      (buildSystem expQ N rs vss ds (List.replicate N 0)).2 = .error ())
    (expQ2 : ℚ → ℚ) (ws : Workspace)
    (hnz : ¬((collectEvalFrom (netIds ws.nConnectors ws.connections)
      (ws.blocks.map resetAndDefault) 0 [] {}).1.length = 0))
    (hws : solveLinear
      (buildSystem expQ2
        (collectEvalFrom (netIds ws.nConnectors ws.connections)
          (ws.blocks.map resetAndDefault) 0 [] {}).1.length
        (collectEvalFrom (netIds ws.nConnectors ws.connections)
          (ws.blocks.map resetAndDefault) 0 [] {}).2.resistors
        (collectEvalFrom (netIds ws.nConnectors ws.connections)
          (ws.blocks.map resetAndDefault) 0 [] {}).2.vSources
        (collectEvalFrom (netIds ws.nConnectors ws.connections)
          (ws.blocks.map resetAndDefault) 0 [] {}).2.diodes
        (List.replicate (collectEvalFrom (netIds ws.nConnectors
          ws.connections) (ws.blocks.map resetAndDefault) 0 [] {}).1.length
          0)).1
      (buildSystem expQ2
        (collectEvalFrom (netIds ws.nConnectors ws.connections)
          (ws.blocks.map resetAndDefault) 0 [] {}).1.length
        (collectEvalFrom (netIds ws.nConnectors ws.connections)
          (ws.blocks.map resetAndDefault) 0 [] {}).2.resistors
        (collectEvalFrom (netIds ws.nConnectors ws.connections)
          (ws.blocks.map resetAndDefault) 0 [] {}).2.vSources
        (collectEvalFrom (netIds ws.nConnectors ws.connections)
          (ws.blocks.map resetAndDefault) 0 [] {}).2.diodes
        (List.replicate (collectEvalFrom (netIds ws.nConnectors
          ws.connections) (ws.blocks.map resetAndDefault) 0 [] {}).1.length
          0)).2 = .error ()) :
    elimColumns dim (i :: rest) (A, z) = .error () ∧
    solveLinear Ain zin = .error () ∧
    solveMNA expQ N rs vss ds opts =
      { success := false, reason := some "linear-solve-failed" } ∧
    evaluateCircuit expQ2 ws =
      { reason := some "solver-failed", fallbackRan := true,
        anns := fallbackSimplePowering ws (ws.blocks.map resetAndDefault)
          (List.replicate (ws.blocks.map resetAndDefault).length {}) } := by
  refine ⟨?_, ?_, ?_, ?_⟩
  · unfold elimColumns
    dsimp only
    rw [if_pos hp]
  · unfold solveLinear
    dsimp only
    rw [if_neg hA, he]
  · exact solveMNA_fail_of_first_solve expQ N rs vss ds opts hsl
  · unfold evaluateCircuit
    dsimp only
    rw [if_neg hnz]
    rw [solveMNA_fail_of_first_solve expQ2 _ _ _ _ _ hws]
    rfl

/-- C5 witness: the 1x1 zero system trips the pivot threshold at column 0 and
errors out of `solveLinear`; an empty one-node system makes `solveMNA` fail
with `linear-solve-failed`; and the lone-resistor workspace (whose ungrounded
node matrix is exactly singular) makes `evaluateCircuit` return
`solver-failed` with the fallback run. -/
theorem small_pivot_singular_failure_and_fallback_witness :
    elimColumns 1 [0] ([[0]], [0]) = .error () ∧
    solveLinear [[0]] [0] = .error () ∧
    solveMNA expAny 1 [] [] [] {} =
      { success := false, reason := some "linear-solve-failed" } ∧
    evaluateCircuit expAny wsOneResistor =
      { reason := some "solver-failed", fallbackRan := true,
        anns := fallbackSimplePowering wsOneResistor
          (wsOneResistor.blocks.map resetAndDefault)
          (List.replicate (wsOneResistor.blocks.map resetAndDefault).length
            {}) } := by
  have h := small_pivot_singular_failure_and_fallback 1 0 [] [[0]] [0]
    (by decide) [[0]] [0] (by decide) (by decide) expAny 1 [] [] [] {}
    (by decide) expAny wsOneResistor (by decide) (by decide)
  exact h
